import Mathlib

/-!
A shallow embedding of `solve.py` (repository `divergentdave/sausageroll`).

The Python source models a sausage-grilling block puzzle and solves it with an
A*-style search.  Every definition below is translated directly from the
source, preserving its behaviour — including behaviour that looks accidental
(for example `move_right`'s use of `old_pos[1]` where the symmetric branches
use `old_pos[0]`, and `process_pushes`'s use of the loop variable `sausage`
where `old_sausage` would be the per-index value).

Modelling decisions:
* Python `int` becomes `ℤ`.
* Python list indexing `l[i]` becomes `pyGet`, which wraps negative indices in
  `[-len, -1]` and returns `none` (an `IndexError`) outside `[-len, len)`.
  A raised exception is modelled by propagating `none` through the caller.
* The `while pushes:` worklist of `process_pushes` is embedded with explicit
  fuel (`loop_fuel`, a potential-function bound proved sufficient below); the
  list is used exactly like the Python list: pushes are appended at the end
  and popped from the end.
* Python `set`/`dict` objects in `solve` become lists / association lists.
  Python set iteration order is unspecified; the embedding fixes insertion
  order.  `float("inf")` scores become `none` in `Option ℤ` with the order
  `infLe`.
* A generator (`yield`) becomes the list of yielded values; a generator that
  raises becomes `none`.
* `solve` reads the module-global `level`, which at runtime is the very object
  the method is invoked on; the embedding identifies the two.
-/

inductive Tile
  | WATER
  | LAND
  | GRILL
deriving DecidableEq, Repr

inductive Direction
  | UP
  | DOWN
  | LEFT
  | RIGHT
deriving DecidableEq, Repr

/-- The displacement vector of each `Direction`, as in the Python enum values. -/
def Direction.vec : Direction → ℤ × ℤ
  | .UP => (0, 1)
  | .DOWN => (0, -1)
  | .LEFT => (-1, 0)
  | .RIGHT => (1, 0)

inductive SausageOrientation
  | HORIZONTAL
  | VERTICAL
deriving DecidableEq, Repr

structure PlayerState where
  pos : ℤ × ℤ
  direction : Direction
deriving DecidableEq, Repr

structure SausageState where
  orientation : SausageOrientation
  pos : ℤ × ℤ
  grilled_bottom_1 : Bool
  grilled_bottom_2 : Bool
  grilled_top_1 : Bool
  grilled_top_2 : Bool
deriving DecidableEq, Repr

/-- `SausageState.grilled_count` (Python sums the four booleans as ints). -/
def SausageState.grilled_count (s : SausageState) : ℕ :=
  s.grilled_bottom_1.toNat + s.grilled_bottom_2.toNat +
    s.grilled_top_1.toNat + s.grilled_top_2.toNat

structure GameState where
  player_state : PlayerState
  sausage_states : List SausageState
deriving DecidableEq, Repr

/-- `GameState.grilled_count`. -/
def GameState.grilled_count (g : GameState) : ℕ :=
  (g.sausage_states.map SausageState.grilled_count).sum

structure Level where
  name : String
  tiles : List (List Tile)
  initial_state : GameState
deriving Repr

/-- `Level.__init__`. -/
def Level.make (name : String) (player_pos : ℤ × ℤ) (player_dir : Direction)
    (tiles : List (List Tile)) (initial_sausages : List SausageState) : Level :=
  ⟨name, tiles, ⟨⟨player_pos, player_dir⟩, initial_sausages⟩⟩

/-- Python list indexing: wraps indices in `[-len, -1]`, raises (`none`)
outside `[-len, len)`. -/
def pyGet {α : Type} (l : List α) (i : ℤ) : Option α :=
  let n : ℤ := l.length
  let j := if i < 0 then i + n else i
  if 0 ≤ j ∧ j < n then l.get? j.toNat else none

/-- `self.tiles[x][y]`; `none` models an `IndexError`. -/
def tileAt (tiles : List (List Tile)) (x y : ℤ) : Option Tile :=
  (pyGet tiles x).bind fun row => pyGet row y

/-- The second cell occupied by a sausage (source lines 341-344). -/
def SausageState.second_cell (s : SausageState) : ℤ × ℤ :=
  match s.orientation with
  | .HORIZONTAL => (s.pos.1 + 1, s.pos.2)
  | .VERTICAL => (s.pos.1, s.pos.2 + 1)

/-- Helper for `sausage_lookup`: dict entries written later (larger index)
overwrite earlier ones, so the last sausage whose cells contain `p` wins. -/
def sausage_lookup_from (i : ℕ) : List SausageState → ℤ × ℤ → Option ℕ
  | [], _ => none
  | s :: rest, p =>
    match sausage_lookup_from (i + 1) rest p with
    | some j => some j
    | none => if p = s.pos ∨ p = s.second_cell then some i else none

/-- The `sausage_lookup` defaultdict of `process_pushes` (lines 338-344). -/
def sausage_lookup (ss : List SausageState) (p : ℤ × ℤ) : Option ℕ :=
  sausage_lookup_from 0 ss p

/-- A push: (target cell, direction vector), as in the source. -/
abbrev Push := (ℤ × ℤ) × (ℤ × ℤ)

/-- Placeholder used with `List.getD`; every lookup index is in range, so it is
never read. -/
def dummySausage : SausageState :=
  ⟨.HORIZONTAL, (0, 0), false, false, false, false⟩

/-- The pushes one worklist iteration appends (source lines 353-370): a
lengthwise push re-enqueues the cell two steps beyond the struck target; a
roll enqueues the sausage's two destination cells.  Every appended push keeps
the direction of the popped push. -/
def new_pushes (sausage : SausageState) (push : Push) : List Push :=
  match sausage.orientation with
  | .HORIZONTAL =>
    if push.2.1 ≠ 0 then
      [((push.1.1 + 2 * push.2.1, push.1.2), push.2)]
    else
      [((sausage.pos.1, sausage.pos.2 + push.2.2), push.2),
       ((sausage.pos.1 + 1, sausage.pos.2 + push.2.2), push.2)]
  | .VERTICAL =>
    if push.2.2 ≠ 0 then
      [((push.1.1, push.1.2 + 2 * push.2.2), push.2)]
    else
      [((sausage.pos.1 + push.2.1, sausage.pos.2), push.2),
       ((sausage.pos.1 + push.2.1, sausage.pos.2 + 1), push.2)]

/-- The `while pushes:` worklist of `process_pushes` (lines 347-370).  Pops
from the end of the list and appends new pushes at the end, exactly like the
Python list.  Besides the `sausage_pushes` array it returns the final value of
the loop variable `sausage` (read later by the update loop) and, as
instrumentation, the ordered trace of `(index, push)` assignments made to
`sausage_pushes`.  `none` means the fuel ran out (never happens for the fuel
bound `loop_fuel`, proved below). -/
def process_pushes_loop (ss : List SausageState) :
    ℕ → List Push → List (Option Push) → Option SausageState → List (ℕ × Push) →
    Option (List (Option Push) × Option SausageState × List (ℕ × Push))
  | _, [], sp, lastS, tr => some (sp, lastS, tr)
  | 0, _ :: _, _, _, _ => none
  | fuel + 1, q :: qs, sp, lastS, tr =>
    let push := (q :: qs).getLast (List.cons_ne_nil q qs)
    let rest := (q :: qs).dropLast
    match sausage_lookup ss push.1 with
    | none => process_pushes_loop ss fuel rest sp lastS tr
    | some i =>
      let sp' := sp.set i (some push)
      let sausage := ss.getD i dummySausage
      process_pushes_loop ss fuel (rest ++ new_pushes sausage push) sp'
        (some sausage) (tr ++ [(i, push)])

/-- `p.1 * d.1 + p.2 * d.2`: the coordinate of `p` along direction `d`. -/
def dirDot (p d : ℤ × ℤ) : ℤ :=
  p.1 * d.1 + p.2 * d.2

/-- All cells occupied by the sausages. -/
def cellsOf (ss : List SausageState) : List (ℤ × ℤ) :=
  ss.foldr (fun s acc => s.pos :: s.second_cell :: acc) []

/-- An upper bound for `dirDot c d` over all occupied cells `c`. -/
def dirBound (ss : List SausageState) (d : ℤ × ℤ) : ℤ :=
  (cellsOf ss).foldr (fun c m => max (dirDot c d) m) 0

/-- Potential of one pending push: how far its target still is from passing
every sausage cell, measured along its own direction. -/
def pushMeasure (ss : List SausageState) (p : Push) : ℕ :=
  (dirBound ss p.2 + 2 - dirDot p.1 p.2).toNat

/-- Potential of a worklist; strictly decreases at every loop iteration, so it
(plus one) is a sufficient fuel bound for `process_pushes_loop`. -/
def loop_fuel (ss : List SausageState) (pushes : List Push) : ℕ :=
  (pushes.map (fun p => 3 ^ pushMeasure ss p)).sum + 1

/-- The per-face grilling step of the update loop (lines 392-422): on a GRILL
tile, an already-grilled face burns (`none`), otherwise the face becomes
grilled. -/
def grill_face (t : Tile) (face : Bool) : Option Bool :=
  if t = .GRILL then (if face then none else some true) else some face

/-- The flags copied by the update loop (lines 382-391 / 403-412).  Note the
source reads them from the loop variable `sausage` (the last sausage processed
by the worklist), not from `old_sausage`. -/
def roll_flags (lastS : SausageState) (lengthwise : Bool) :
    Bool × Bool × Bool × Bool :=
  if lengthwise then
    (lastS.grilled_bottom_1, lastS.grilled_bottom_2,
     lastS.grilled_top_1, lastS.grilled_top_2)
  else
    (lastS.grilled_top_1, lastS.grilled_top_2,
     lastS.grilled_bottom_1, lastS.grilled_bottom_2)

/-- One iteration of the update loop of `process_pushes` (lines 378-433) for a
pushed sausage.  Outer `none`: `IndexError` from `self.tiles[..][..]`;
`some none`: `burned = True` followed by `break`; `some (some s)`: the updated
sausage.  The tile reads happen in source order, so a burn on the first cell
prevents the second read, and the branch on orientation and the grill flags
come from `lastS` (the source's `sausage`), while positions come from `old`. -/
def apply_push (tiles : List (List Tile)) (lastS old : SausageState)
    (push : Push) : Option (Option SausageState) :=
  let sx := old.pos.1 + push.2.1
  let sy := old.pos.2 + push.2.2
  match lastS.orientation with
  | .HORIZONTAL =>
    let f := roll_flags lastS (push.2.1 ≠ 0)
    match tileAt tiles sx sy with
    | none => none
    | some t1 =>
      match grill_face t1 f.1 with
      | none => some none
      | some gb1 =>
        match tileAt tiles (sx + 1) sy with
        | none => none
        | some t2 =>
          match grill_face t2 f.2.1 with
          | none => some none
          | some gb2 =>
            some (some ⟨old.orientation, (sx, sy), gb1, gb2, f.2.2.1, f.2.2.2⟩)
  | .VERTICAL =>
    let f := roll_flags lastS (push.2.2 ≠ 0)
    match tileAt tiles sx sy with
    | none => none
    | some t1 =>
      match grill_face t1 f.1 with
      | none => some none
      | some gb1 =>
        match tileAt tiles sx (sy + 1) with
        | none => none
        | some t2 =>
          match grill_face t2 f.2.1 with
          | none => some none
          | some gb2 =>
            some (some ⟨old.orientation, (sx, sy), gb1, gb2, f.2.2.1, f.2.2.2⟩)

/-- The update loop of `process_pushes` (lines 372-433) over the zipped list of
sausages and their recorded pushes.  Outer `none` models an exception (an
`IndexError`, or the `NameError` that would occur if `sausage` were read while
unassigned); `some none` models `burned = True` (nothing is yielded);
`some (some l)` is the list of new sausages. -/
def apply_pushes (tiles : List (List Tile)) (lastS : Option SausageState) :
    List (SausageState × Option Push) → Option (Option (List SausageState))
  | [] => some (some [])
  | (old, none) :: rest =>
    (apply_pushes tiles lastS rest).map (fun r => r.map (old :: ·))
  | (old, some push) :: rest =>
    match lastS with
    | none => none
    | some ls =>
      match apply_push tiles ls old push with
      | none => none
      | some none => some none
      | some (some s') =>
        (apply_pushes tiles lastS rest).map (fun r => r.map (s' :: ·))

/-- `Level.process_pushes` (lines 337-438).  Returns the list of states the
generator yields (`[]` when the action burned, a singleton otherwise), or
`none` when the computation raises. -/
def Level.process_pushes (lvl : Level) (state : GameState) (next_pos : ℤ × ℤ)
    (next_dir : Direction) (pushes : List Push) : Option (List GameState) :=
  let ss := state.sausage_states
  match process_pushes_loop ss (loop_fuel ss pushes) pushes
      (List.replicate ss.length none) none [] with
  | none => none
  | some (sp, lastS, _) =>
    match apply_pushes lvl.tiles lastS (ss.zip sp) with
    | none => none
    | some none => some []
    | some (some newss) => some [⟨⟨next_pos, next_dir⟩, newss⟩]

/-- `Level.move_up` (lines 189-224). -/
def Level.move_up (lvl : Level) (state : GameState) : Option (List GameState) :=
  let old := state.player_state.pos
  match state.player_state.direction with
  | .UP =>  -- move forward
    match tileAt lvl.tiles old.1 (old.2 + 1) with
    | none => none
    | some .WATER => lvl.process_pushes state old .UP []
    | some .LAND =>
      lvl.process_pushes state (old.1, old.2 + 1) .UP
        [((old.1, old.2 + 2), (0, 1))]
    | some .GRILL =>
      lvl.process_pushes state old .UP [((old.1, old.2 + 2), (0, 1))]
  | .DOWN =>  -- move backward
    match tileAt lvl.tiles old.1 (old.2 - 1) with
    | none => none
    | some .WATER => lvl.process_pushes state old .DOWN []
    | some .LAND =>
      lvl.process_pushes state (old.1, old.2 - 1) .DOWN
        [((old.1, old.2 - 1), (0, -1))]
    | some .GRILL =>
      lvl.process_pushes state old .DOWN [((old.1, old.2 - 1), (0, -1))]
  | .LEFT =>  -- turn
    lvl.process_pushes state old .UP
      [((old.1 - 1, old.2 + 1), (-1, 0)), ((old.1 - 1, old.2), (0, -1))]
  | .RIGHT =>  -- turn
    lvl.process_pushes state old .UP
      [((old.1 + 1, old.2 + 1), (1, 0)), ((old.1 + 1, old.2), (0, -1))]

/-- `Level.move_down` (lines 226-261). -/
def Level.move_down (lvl : Level) (state : GameState) : Option (List GameState) :=
  let old := state.player_state.pos
  match state.player_state.direction with
  | .UP =>  -- move backward
    match tileAt lvl.tiles old.1 (old.2 + 1) with
    | none => none
    | some .WATER => lvl.process_pushes state old .UP []
    | some .LAND =>
      lvl.process_pushes state (old.1, old.2 + 1) .UP
        [((old.1, old.2 + 1), (0, 1))]
    | some .GRILL =>
      lvl.process_pushes state old .UP [((old.1, old.2 + 1), (0, 1))]
  | .DOWN =>  -- move forward
    match tileAt lvl.tiles old.1 (old.2 - 1) with
    | none => none
    | some .WATER => lvl.process_pushes state old .DOWN []
    | some .LAND =>
      lvl.process_pushes state (old.1, old.2 - 1) .DOWN
        [((old.1, old.2 - 2), (0, -1))]
    | some .GRILL =>
      lvl.process_pushes state old .DOWN [((old.1, old.2 - 2), (0, -1))]
  | .LEFT =>  -- turn
    lvl.process_pushes state old .DOWN
      [((old.1 - 1, old.2 - 1), (-1, 0)), ((old.1 - 1, old.2), (0, 1))]
  | .RIGHT =>  -- turn
    lvl.process_pushes state old .DOWN
      [((old.1 + 1, old.2 - 1), (1, 0)), ((old.1 + 1, old.2), (0, 1))]

/-- `Level.move_left` (lines 263-298). -/
def Level.move_left (lvl : Level) (state : GameState) : Option (List GameState) :=
  let old := state.player_state.pos
  match state.player_state.direction with
  | .UP =>  -- turn
    lvl.process_pushes state old .LEFT
      [((old.1 - 1, old.2 + 1), (0, 1)), ((old.1, old.2 + 1), (1, 0))]
  | .DOWN =>  -- turn
    lvl.process_pushes state old .LEFT
      [((old.1 - 1, old.2 - 1), (0, -1)), ((old.1, old.2 - 1), (1, 0))]
  | .LEFT =>  -- move forward
    match tileAt lvl.tiles (old.1 - 1) old.2 with
    | none => none
    | some .WATER => lvl.process_pushes state old .LEFT []
    | some .LAND =>
      lvl.process_pushes state (old.1 - 1, old.2) .LEFT
        [((old.1 - 2, old.2), (-1, 0))]
    | some .GRILL =>
      lvl.process_pushes state old .LEFT [((old.1 - 2, old.2), (-1, 0))]
  | .RIGHT =>  -- move backward
    match tileAt lvl.tiles (old.1 + 1) old.2 with
    | none => none
    | some .WATER => lvl.process_pushes state old .RIGHT []
    | some .LAND =>
      lvl.process_pushes state (old.1 + 1, old.2) .RIGHT
        [((old.1 + 1, old.2), (1, 0))]
    | some .GRILL =>
      lvl.process_pushes state old .RIGHT [((old.1 + 1, old.2), (1, 0))]

/-- `Level.move_right` (lines 300-335).  The first two branches reproduce the
source exactly, including its use of `old_pos[1]` (the y coordinate) where the
symmetric branches of the other move functions use `old_pos[0]`. -/
def Level.move_right (lvl : Level) (state : GameState) : Option (List GameState) :=
  let old := state.player_state.pos
  match state.player_state.direction with
  | .UP =>  -- turn
    lvl.process_pushes state old .RIGHT
      [((old.2 + 1, old.2 + 1), (0, 1)), ((old.2, old.2 + 1), (-1, 0))]
  | .DOWN =>  -- turn
    lvl.process_pushes state old .RIGHT
      [((old.2 + 1, old.2 - 1), (0, -1)), ((old.2, old.2 - 1), (-1, 0))]
  | .LEFT =>  -- move backward
    match tileAt lvl.tiles (old.1 - 1) old.2 with
    | none => none
    | some .WATER => lvl.process_pushes state old .LEFT []
    | some .LAND =>
      lvl.process_pushes state (old.1 - 1, old.2) .LEFT
        [((old.1 - 1, old.2), (-1, 0))]
    | some .GRILL =>
      lvl.process_pushes state old .LEFT [((old.1 - 1, old.2), (-1, 0))]
  | .RIGHT =>  -- move forward
    match tileAt lvl.tiles (old.1 + 1) old.2 with
    | none => none
    | some .WATER => lvl.process_pushes state old .RIGHT []
    | some .LAND =>
      lvl.process_pushes state (old.1 + 1, old.2) .RIGHT
        [((old.1 + 2, old.2), (1, 0))]
    | some .GRILL =>
      lvl.process_pushes state old .RIGHT [((old.1 + 2, old.2), (1, 0))]

/-- `Level.neighbors` (lines 183-187): all states yielded by the four moves.
In the source the generator is consumed lazily; an exception anywhere aborts
the whole search, which the embedding models by returning `none`. -/
def Level.neighbors (lvl : Level) (state : GameState) : Option (List GameState) := do
  let a ← lvl.move_up state
  let b ← lvl.move_down state
  let c ← lvl.move_left state
  let d ← lvl.move_right state
  return a ++ b ++ c ++ d

/-- `Level.is_winning` (lines 121-131). -/
def Level.is_winning (_lvl : Level) (state : GameState) : Bool :=
  state.sausage_states.all fun s =>
    s.grilled_bottom_1 && s.grilled_bottom_2 && s.grilled_top_1 && s.grilled_top_2

/-- `heuristic_cost_estimate` (lines 134-137), computed in `ℤ` like Python. -/
def heuristic_cost_estimate (state : GameState) : ℤ :=
  100 * (4 * (state.sausage_states.length : ℤ) - (state.grilled_count : ℤ))

/-- Association-list lookup standing in for a Python dict keyed by game
states; new bindings are consed at the front, so the first match is the most
recent binding. -/
def alookup {β : Type} (m : List (GameState × β)) (k : GameState) : Option β :=
  (m.find? (fun e => e.1 == k)).map (·.2)

/-- The order on scores, with `none` playing `float("inf")`. -/
def infLe (a b : Option ℤ) : Bool :=
  match b with
  | none => true
  | some y =>
    match a with
    | none => false
    | some x => x ≤ y

/-- The bookkeeping state of `solve` (lines 139-146). -/
structure SearchSt where
  closed_set : List GameState
  open_set : List GameState
  step_lookup : List (GameState × GameState)
  g_score : List (GameState × ℤ)
  f_score : List (GameState × ℤ)
deriving Repr

/-- The `current`-selection scan of `solve` (lines 148-153): iterate over the
open set, keeping the latest state whose f-score is `<=` the best so far. -/
def pick_current (f : List (GameState × ℤ)) (open_set : List GameState) :
    Option GameState × Option ℤ :=
  open_set.foldl
    (fun acc s => if infLe (alookup f s) acc.2 then (some s, alookup f s) else acc)
    (none, none)

/-- Path reconstruction (lines 157-162): follow `step_lookup` back, prepending
each state.  Fuel bounds the `while` loop; `none` models non-termination. -/
def reconstruct (step : List (GameState × GameState)) :
    ℕ → GameState → List GameState → Option (List GameState)
  | 0, _, _ => none
  | fuel + 1, back, states =>
    match alookup step back with
    | none => some states
    | some prev => reconstruct step fuel prev (back :: states)

inductive SolveOutcome
  | success (states : List GameState)
  | failure
deriving DecidableEq, Repr

/-- The per-neighbor body of the expansion loop (lines 167-180). -/
def relax_one (current : GameState) (st : SearchSt) (neighbor : GameState) :
    SearchSt :=
  if st.closed_set.contains neighbor then st
  else
    let st1 :=
      if st.open_set.contains neighbor then st
      else { st with open_set := st.open_set ++ [neighbor] }
    match (alookup st1.g_score current).map (· + 1) with
    | none => st1
    | some tentative =>
      if infLe (alookup st1.g_score neighbor) (some tentative) then st1
      else
        { st1 with
          step_lookup := (neighbor, current) :: st1.step_lookup,
          g_score := (neighbor, tentative) :: st1.g_score,
          f_score :=
            (neighbor, tentative + heuristic_cost_estimate neighbor) ::
              st1.f_score }

/-- The `while open_set:` loop of `solve` (lines 147-181), with fuel counting
loop iterations.  `some .failure` is the `print("Failed")` fall-through (the
function returns `None`); the impossible `pick_current = none` case for a
nonempty open set is mapped to `none`. -/
def Level.solve_loop (lvl : Level) : ℕ → SearchSt → Option SolveOutcome
  | 0, _ => none
  | fuel + 1, st =>
    if st.open_set = [] then some .failure
    else
      match (pick_current st.f_score st.open_set).1 with
      | none => none
      | some current =>
        if lvl.is_winning current then
          (reconstruct st.step_lookup
              (((alookup st.g_score current).getD 0).toNat + 1) current []).map
            .success
        else
          let st' :=
            { st with
              open_set := st.open_set.erase current,
              closed_set := st.closed_set ++ [current] }
          match lvl.neighbors current with
          | none => none
          | some nbrs => lvl.solve_loop fuel (nbrs.foldl (relax_one current) st')

/-- `Level.solve` (lines 133-181). -/
def Level.solve (lvl : Level) (fuel : ℕ) : Option SolveOutcome :=
  let init := lvl.initial_state
  lvl.solve_loop fuel
    { closed_set := [],
      open_set := [init],
      step_lookup := [],
      g_score := [(init, 0)],
      f_score := [(init, heuristic_cost_estimate init)] }

/-- A list of states in which each consecutive pair is related by one of the
four actions (membership in `Level.neighbors`). -/
def Level.valid_chain (lvl : Level) : List GameState → Bool
  | [] => true
  | [_] => true
  | a :: b :: rest =>
    (match lvl.neighbors a with
     | none => false
     | some l => l.contains b) && lvl.valid_chain (b :: rest)

/-- The four keys a player can press; `move_of` dispatches to the four move
methods, mirroring `neighbors`' enumeration. -/
inductive MoveKey
  | up
  | down
  | left
  | right
deriving DecidableEq, Repr

def Level.move_of (lvl : Level) : MoveKey → GameState → Option (List GameState)
  | .up => lvl.move_up
  | .down => lvl.move_down
  | .left => lvl.move_left
  | .right => lvl.move_right

/-- The absolute direction of a key press. -/
def MoveKey.vec : MoveKey → ℤ × ℤ
  | .up => (0, 1)
  | .down => (0, -1)
  | .left => (-1, 0)
  | .right => (1, 0)

/-- The four unit direction vectors; every push the move functions create, and
every push the worklist propagates, has its direction in this list. -/
def unitDirs : List (ℤ × ℤ) := [(0, 1), (0, -1), (-1, 0), (1, 0)]

/-- Worklist potential: the quantity that strictly decreases at each iteration
of `process_pushes_loop` (`loop_fuel` is this plus one). -/
def pushPotential (ss : List SausageState) (pushes : List Push) : ℕ :=
  (pushes.map (fun p => 3 ^ pushMeasure ss p)).sum

/-- The invariant `solve`'s bookkeeping maintains: `step_lookup` records real
transition-engine edges whose g-scores strictly decrease toward the initial
state (which is never given a predecessor), and every open state has a
g-score. -/
def SearchInv (lvl : Level) (st : SearchSt) : Prop :=
  (∀ c p, alookup st.step_lookup c = some p →
    ∃ l, lvl.neighbors p = some l ∧ c ∈ l) ∧
  (∀ c p, alookup st.step_lookup c = some p →
    ∃ gc gp, alookup st.g_score c = some gc ∧ alookup st.g_score p = some gp ∧
      gp < gc) ∧
  (∀ c gv, alookup st.g_score c = some gv →
    c = lvl.initial_state ∨ (alookup st.step_lookup c).isSome) ∧
  (∀ c, c ∈ st.open_set → (alookup st.g_score c).isSome) ∧
  (alookup st.step_lookup lvl.initial_state = none) ∧
  (alookup st.g_score lvl.initial_state = some 0) ∧
  (∀ c gv, alookup st.g_score c = some gv → 0 ≤ gv)

/-! ### Concrete fixtures

Levels and states used as concrete inputs when settling the claims.  Boards
are column-major like the source (`tiles[x][y]`, y increasing upward). -/

/-- A row (fixed x, all y) of LAND tiles. -/
def landRow (n : ℕ) : List Tile := List.replicate n .LAND

/-- An all-LAND board of `w` columns and `h` rows. -/
def landBoard (w h : ℕ) : List (List Tile) := List.replicate w (landRow h)

/-- A column of height 9 described sparsely; unmentioned cells are WATER. -/
def sparseCol (l : List (ℕ × Tile)) : List Tile :=
  (List.range 9).map (fun y => (l.lookup y).getD .WATER)

/-- Fixture for C2: lone player on an all-LAND board, facing UP. -/
def lvlC2 : Level := Level.make "c2" (2, 2) .UP (landBoard 6 6) []

/-- Fixture for C3: player at (4,2) facing UP; a sausage at (2,3), far from
the turn's pivot-adjacent cells (5,3) and (4,3). -/
def lvlC3 : Level := Level.make "c3" (4, 2) .UP (landBoard 6 6)
  [⟨.VERTICAL, (2, 3), false, false, false, false⟩]

/-- Fixture for C4: a forward push rolls sausage A (with `grilled_top_1`) into
sausage B; both roll, all on LAND. -/
def lvlC4 : Level := Level.make "c4" (2, 2) .UP (landBoard 5 8)
  [⟨.HORIZONTAL, (2, 4), false, false, true, false⟩,
   ⟨.HORIZONTAL, (2, 5), false, false, false, false⟩]

/-- Fixture for C5: like C4 but the cell (2,5) where A lands is a GRILL, so
A's rolled-down `top_1` face (already grilled) lands on a grill. -/
def lvlC5 : Level := Level.make "c5" (2, 2) .UP
  [landRow 8, landRow 8, (landRow 8).set 5 .GRILL, landRow 8, landRow 8]
  [⟨.HORIZONTAL, (2, 4), false, false, true, false⟩,
   ⟨.HORIZONTAL, (2, 5), false, false, false, false⟩]

/-- Fixture for C8: like C4 with A's `grilled_top_2` set. -/
def lvlC8 : Level := Level.make "c8" (2, 2) .UP (landBoard 5 8)
  [⟨.HORIZONTAL, (2, 4), false, false, false, true⟩,
   ⟨.HORIZONTAL, (2, 5), false, false, false, false⟩]

/-- Fixture for C6: a vertical sausage whose two cells are both struck by the
two pushes of a single turn action (`move_up` while facing LEFT). -/
def sC6 : SausageState := ⟨.VERTICAL, (2, 3), false, false, false, false⟩

/-- The push list built by `move_up` for a player at (3,3) facing LEFT. -/
def pushesC6 : List Push := [((2, 4), (-1, 0)), ((2, 3), (0, -1))]

/-- Fixture for C7: a 4x4 all-LAND board with every occupant in bounds; the
sausage at the top edge gets pushed off, so the burn check indexes row 4. -/
def lvlC7 : Level := Level.make "c7" (1, 1) .UP (landBoard 4 4)
  [⟨.HORIZONTAL, (1, 3), false, false, false, false⟩]

/-- Fixture for C9: the forward move's target cell (2,3) is a GRILL and a
sausage occupies exactly that cell. -/
def lvlC9 : Level := Level.make "c9" (2, 2) .UP
  [landRow 6, landRow 6, (landRow 6).set 3 .GRILL, landRow 6, landRow 6, landRow 6]
  [⟨.HORIZONTAL, (2, 3), false, false, false, false⟩]

/-- Fixture for C10's witness: a level with no sausages at all. -/
def lvlC10 : Level := Level.make "c10" (1, 1) .UP (landBoard 3 3) []

/-- Fixture for C1: a level on which the search returns a non-minimal path.
The player is confined to the column x = 3; the double-grill pairs at
(4,2)/(4,3) and (5,2)/(5,3) admit a 5-action solution whose first grilling
only happens on its second action, while pushing the sausage up at depth 1
grills one face at once, which the 100-scaled heuristic then prefers. -/
def trapTiles : List (List Tile) :=
  [sparseCol [], sparseCol [], sparseCol [],
   sparseCol [(0, .LAND), (1, .LAND), (2, .LAND), (3, .LAND), (4, .GRILL)],
   sparseCol [(2, .GRILL), (3, .GRILL)],
   sparseCol [(2, .GRILL), (3, .GRILL)],
   sparseCol [(4, .GRILL)], sparseCol [], sparseCol [], sparseCol []]

def trapLevel : Level := Level.make "trap" (3, 0) .UP trapTiles
  [⟨.VERTICAL, (3, 2), false, false, false, false⟩]

/-- The 9-step path `trapLevel.solve` actually returns. -/
def trapSolvePath : List GameState :=
  [⟨⟨(3, 1), .UP⟩, [⟨.VERTICAL, (3, 3), false, true, false, false⟩]⟩,
   ⟨⟨(3, 2), .UP⟩, [⟨.VERTICAL, (3, 3), false, true, false, false⟩]⟩,
   ⟨⟨(3, 2), .LEFT⟩, [⟨.VERTICAL, (4, 3), true, false, false, true⟩]⟩,
   ⟨⟨(3, 2), .DOWN⟩, [⟨.VERTICAL, (4, 3), true, false, false, true⟩]⟩,
   ⟨⟨(3, 2), .RIGHT⟩, [⟨.VERTICAL, (4, 3), true, false, false, true⟩]⟩,
   ⟨⟨(3, 2), .UP⟩, [⟨.VERTICAL, (5, 3), true, true, true, false⟩]⟩,
   ⟨⟨(3, 3), .UP⟩, [⟨.VERTICAL, (5, 3), true, true, true, false⟩]⟩,
   ⟨⟨(3, 3), .RIGHT⟩, [⟨.VERTICAL, (5, 3), true, true, true, false⟩]⟩,
   ⟨⟨(3, 3), .RIGHT⟩, [⟨.VERTICAL, (6, 3), true, true, true, true⟩]⟩]

/-- A valid 5-action solution of `trapLevel` (shorter than what `solve`
returns): step up, roll the sausage onto the (4,·) grill pair by turning,
turn twice, and roll it onto the (5,·) pair by turning again. -/
def trapShortPath : List GameState :=
  [⟨⟨(3, 1), .UP⟩, [⟨.VERTICAL, (3, 2), false, false, false, false⟩]⟩,
   ⟨⟨(3, 1), .LEFT⟩, [⟨.VERTICAL, (4, 2), true, true, false, false⟩]⟩,
   ⟨⟨(3, 1), .UP⟩, [⟨.VERTICAL, (4, 2), true, true, false, false⟩]⟩,
   ⟨⟨(3, 1), .RIGHT⟩, [⟨.VERTICAL, (4, 2), true, true, false, false⟩]⟩,
   ⟨⟨(3, 1), .UP⟩, [⟨.VERTICAL, (5, 2), true, true, true, true⟩]⟩]

/-! ### Theorems -/

/-- C2: the claim says pressing the direction opposite the facing moves the
player one cell *opposite* to its facing.  On an all-LAND board with the
player at (2,2) facing UP, pressing down (`move_down`) yields a successor
whose player is at (2,3) — one cell *in* the facing direction — not at the
claimed (2,1).  (The same swap appears in all four "move backward"
branches.) -/
theorem C2_backward_moves_along_facing :
    lvlC2.move_down lvlC2.initial_state = some [⟨⟨(2, 3), .UP⟩, []⟩] ∧
      ((2, 3) : ℤ × ℤ) ≠ (2, 1) := by
  constructor
  · rfl
  · decide

/-- C3: the claim says a turn with no sausage on the pivot-adjacent cells
changes only the facing.  With the player at (4,2) facing UP, the
pivot-adjacent cells of the `move_right` turn are (5,3) and (4,3) and hold no
sausage, yet the successor's sausage has been rolled from (2,3) to (1,3),
because `move_right` computes its push targets from `old_pos[1]`. -/
theorem C3_turn_moves_remote_sausage :
    sausage_lookup lvlC3.initial_state.sausage_states (5, 3) = none ∧
    sausage_lookup lvlC3.initial_state.sausage_states (4, 3) = none ∧
    lvlC3.move_right lvlC3.initial_state =
      some [⟨⟨(4, 2), .RIGHT⟩,
        [⟨.VERTICAL, (1, 3), false, false, false, false⟩]⟩] ∧
    lvlC3.initial_state.sausage_states =
      [⟨.VERTICAL, (2, 3), false, false, false, false⟩] := by
  exact ⟨rfl, rfl, rfl, rfl⟩

/-- C4: the claim says a rolled sausage's own bottom/top flags are swapped.
Sausage A at (2,4) has `grilled_top_1 = true`; the forward push rolls A and
the chained sausage B, but A's new flags are copied from B (the update loop
reads the stale `sausage` variable), so the successor's A has all-false flags
instead of `grilled_bottom_1 = true`. -/
theorem C4_roll_takes_flags_from_wrong_sausage :
    (lvlC4.initial_state.sausage_states.map SausageState.grilled_top_1) =
      [true, false] ∧
    lvlC4.move_up lvlC4.initial_state =
      some [⟨⟨(2, 3), .UP⟩,
        [⟨.HORIZONTAL, (2, 5), false, false, false, false⟩,
         ⟨.HORIZONTAL, (2, 6), false, false, false, false⟩]⟩] := by
  exact ⟨rfl, rfl⟩

/-- C5: the claim says an action that would place an already-grilled face on
a GRILL yields no successor.  Here A's rolled-down bottom face is its
already-grilled `top_1` and it lands on the GRILL at (2,5), yet a successor
is produced (with that face freshly "grilled"), because the burn check reads
the flags of the stale `sausage` variable (B, all false) instead of A's. -/
theorem C5_double_grill_not_discarded :
    tileAt lvlC5.tiles 2 5 = some .GRILL ∧
    (lvlC5.initial_state.sausage_states.map SausageState.grilled_top_1) =
      [true, false] ∧
    lvlC5.move_up lvlC5.initial_state =
      some [⟨⟨(2, 3), .UP⟩,
        [⟨.HORIZONTAL, (2, 5), true, false, false, false⟩,
         ⟨.HORIZONTAL, (2, 6), false, false, false, false⟩]⟩] := by
  exact ⟨rfl, rfl, rfl⟩

/-- C8: the claim says grill flags never revert to false.  Sausage A starts
with `grilled_top_2 = true` (total grilled count 1); after the chained roll
the successor's sausages have every flag false (count 0), because A's flags
were copied from B. -/
theorem C8_grill_flags_revert :
    lvlC8.initial_state.grilled_count = 1 ∧
    lvlC8.move_up lvlC8.initial_state =
      some [⟨⟨(2, 3), .UP⟩,
        [⟨.HORIZONTAL, (2, 5), false, false, false, false⟩,
         ⟨.HORIZONTAL, (2, 6), false, false, false, false⟩]⟩] ∧
    (⟨⟨(2, 3), .UP⟩,
        [⟨.HORIZONTAL, (2, 5), false, false, false, false⟩,
         ⟨.HORIZONTAL, (2, 6), false, false, false, false⟩]⟩ :
      GameState).grilled_count = 0 := by
  exact ⟨rfl, rfl, rfl⟩

/-- C6 (counterexample): the two pushes of a single turn action (`move_up`
with the player at (3,3) facing LEFT) both strike the same vertical sausage
at (2,3)-(2,4): the worklist trace records sausage 0 twice, so "each sausage
is pushed at most once" fails. -/
theorem C6_counterexample :
    (process_pushes_loop [sC6] (loop_fuel [sC6] pushesC6) pushesC6
        (List.replicate 1 none) none []).map
      (fun r => r.2.2.map Prod.fst) = some [0, 0] ∧
    ¬ ([0, 0] : List ℕ).Nodup := by
  constructor
  · rfl
  · decide

/-- C7 (counterexample): every occupant of `lvlC7` is inside the 4x4 board,
yet computing `move_up` pushes the sausage from row 3 to row 4 and the burn
check indexes `tiles[1][4]`, which is out of bounds: the whole computation
raises instead of treating the cell as impassable. -/
theorem C7_counterexample :
    cellsOf lvlC7.initial_state.sausage_states = [(1, 3), (2, 3)] ∧
    lvlC7.initial_state.player_state.pos = (1, 1) ∧
    lvlC7.tiles.length = 4 ∧
    tileAt lvlC7.tiles 1 4 = none ∧
    lvlC7.move_up lvlC7.initial_state = none := by
  exact ⟨rfl, rfl, rfl, rfl, rfl⟩

/-- C9 (counterexample): the claim says a sausage occupying the GRILL target
cell of a translational move is pushed one cell.  With the player at (2,2)
facing UP, the GRILL target (2,3) is occupied by a sausage, but the forward
move pushes the cell two ahead (2,4) instead: the unique successor equals
the predecessor and the sausage has not moved. -/
theorem C9_counterexample :
    tileAt lvlC9.tiles 2 3 = some .GRILL ∧
    sausage_lookup lvlC9.initial_state.sausage_states (2, 3) = some 0 ∧
    lvlC9.move_up lvlC9.initial_state = some [lvlC9.initial_state] := by
  exact ⟨rfl, rfl, rfl⟩

/-- Looking up the key just inserted at the front of an association list. -/
theorem alookup_cons_self {β : Type} (k : GameState) (v : β)
    (m : List (GameState × β)) : alookup ((k, v) :: m) k = some v := by
  simp [alookup, List.find?]

/-- Inserting a different key leaves a lookup unchanged. -/
theorem alookup_cons_ne {β : Type} (k' k : GameState) (v : β)
    (m : List (GameState × β)) (h : k' ≠ k) :
    alookup ((k', v) :: m) k = alookup m k := by
  have : (k' == k) = false := by simp [h]
  simp [alookup, List.find?, this]

/-- The empty association list has no bindings. -/
theorem alookup_nil {β : Type} (k : GameState) :
    alookup ([] : List (GameState × β)) k = none := rfl

/-- C10: a configuration with no sausages is vacuously winning, and `solve`
returns success with the empty path after a single loop iteration — the goal
test on the popped initial state succeeds before any successor is
generated. -/
theorem C10_empty_sausages_win_immediately :
    ∀ lvl : Level, lvl.initial_state.sausage_states = [] →
      lvl.is_winning lvl.initial_state = true ∧
        lvl.solve 1 = some (.success []) := by
  intro lvl h
  have hwin : lvl.is_winning lvl.initial_state = true := by
    simp [Level.is_winning, h]
  refine ⟨hwin, ?_⟩
  show lvl.solve_loop 1 _ = _
  unfold Level.solve_loop
  have hpick :
      (pick_current
        [(lvl.initial_state, heuristic_cost_estimate lvl.initial_state)]
        [lvl.initial_state]).1 = some lvl.initial_state := by
    simp [pick_current, infLe]
  simp [hpick, hwin, alookup_cons_self, reconstruct, alookup_nil]

/-- Witness for C10 at the concrete sausage-free level `lvlC10`. -/
theorem C10_witness :
    lvlC10.is_winning lvlC10.initial_state = true ∧
      lvlC10.solve 1 = some (.success []) :=
  C10_empty_sausages_win_immediately lvlC10 rfl

/-- Whatever `process_pushes` yields carries exactly the player pose
`(next_pos, next_dir)` it was given (source line 436). -/
theorem process_pushes_player (lvl : Level) (state : GameState) (np : ℤ × ℤ)
    (nd : Direction) (pushes : List Push) :
    ∀ s' ∈ (lvl.process_pushes state np nd pushes).getD [],
      s'.player_state = ⟨np, nd⟩ := by
  intro s' hs'
  simp only [Level.process_pushes] at hs'
  split at hs'
  · simp at hs'
  · split at hs'
    · simp at hs'
    · simp at hs'
    · simp only [Option.getD_some, List.mem_singleton] at hs'
      rw [hs']

/-- C9 (amended): a translational move (pressing the key along or against the
facing) whose inspected target cell — the cell adjacent in the *facing*
direction — is a GRILL produces exactly the successors of `process_pushes`
with the player left in place with unchanged facing, and with a single push in
the facing direction: at distance two (the fork cell) for the forward key and
distance one (the target cell itself) for the backward key.  In particular the
player never advances onto the grill, and a sausage on the target cell itself
is only pushed by the backward form. -/
theorem C9_amended (lvl : Level) (s : GameState) (k : MoveKey)
    (hk : k.vec = s.player_state.direction.vec ∨
      k.vec = -s.player_state.direction.vec)
    (htile : tileAt lvl.tiles
        (s.player_state.pos.1 + s.player_state.direction.vec.1)
        (s.player_state.pos.2 + s.player_state.direction.vec.2) =
      some .GRILL) :
    lvl.move_of k s =
      lvl.process_pushes s s.player_state.pos s.player_state.direction
        [((s.player_state.pos.1 +
            (if k.vec = s.player_state.direction.vec then 2 else 1) *
              s.player_state.direction.vec.1,
           s.player_state.pos.2 +
            (if k.vec = s.player_state.direction.vec then 2 else 1) *
              s.player_state.direction.vec.2),
          s.player_state.direction.vec)] ∧
    ∀ s' ∈ (lvl.move_of k s).getD [], s'.player_state = s.player_state := by
  obtain ⟨⟨ppos, pdir⟩, ss⟩ := s
  cases pdir <;> cases k
  · -- facing UP, key up: move forward
    have ht : tileAt lvl.tiles ppos.1 (ppos.2 + 1) = some Tile.GRILL := by
      simpa [Direction.vec] using htile
    have heq : lvl.move_of .up ⟨⟨ppos, .UP⟩, ss⟩ =
        lvl.process_pushes ⟨⟨ppos, .UP⟩, ss⟩ ppos .UP
          [((ppos.1, ppos.2 + 2), (0, 1))] := by
      simp only [Level.move_of, Level.move_up]
      rw [ht]
    refine ⟨?_, ?_⟩
    · rw [heq]; simp [MoveKey.vec, Direction.vec]
    · intro s' hs'
      rw [heq] at hs'
      exact process_pushes_player lvl _ ppos .UP _ s' hs'
  · -- facing UP, key down: move backward
    have ht : tileAt lvl.tiles ppos.1 (ppos.2 + 1) = some Tile.GRILL := by
      simpa [Direction.vec] using htile
    have heq : lvl.move_of .down ⟨⟨ppos, .UP⟩, ss⟩ =
        lvl.process_pushes ⟨⟨ppos, .UP⟩, ss⟩ ppos .UP
          [((ppos.1, ppos.2 + 1), (0, 1))] := by
      simp only [Level.move_of, Level.move_down]
      rw [ht]
    refine ⟨?_, ?_⟩
    · rw [heq]; simp [MoveKey.vec, Direction.vec]
    · intro s' hs'
      rw [heq] at hs'
      exact process_pushes_player lvl _ ppos .UP _ s' hs'
  · exact absurd hk (by simp [MoveKey.vec, Direction.vec, Prod.ext_iff])
  · exact absurd hk (by simp [MoveKey.vec, Direction.vec, Prod.ext_iff])
  · -- facing DOWN, key up: move backward
    have ht : tileAt lvl.tiles ppos.1 (ppos.2 - 1) = some Tile.GRILL := by
      simpa [Direction.vec, ← sub_eq_add_neg] using htile
    have heq : lvl.move_of .up ⟨⟨ppos, .DOWN⟩, ss⟩ =
        lvl.process_pushes ⟨⟨ppos, .DOWN⟩, ss⟩ ppos .DOWN
          [((ppos.1, ppos.2 - 1), (0, -1))] := by
      simp only [Level.move_of, Level.move_up]
      rw [ht]
    refine ⟨?_, ?_⟩
    · rw [heq]; simp [MoveKey.vec, Direction.vec, sub_eq_add_neg]
    · intro s' hs'
      rw [heq] at hs'
      exact process_pushes_player lvl _ ppos .DOWN _ s' hs'
  · -- facing DOWN, key down: move forward
    have ht : tileAt lvl.tiles ppos.1 (ppos.2 - 1) = some Tile.GRILL := by
      simpa [Direction.vec, ← sub_eq_add_neg] using htile
    have heq : lvl.move_of .down ⟨⟨ppos, .DOWN⟩, ss⟩ =
        lvl.process_pushes ⟨⟨ppos, .DOWN⟩, ss⟩ ppos .DOWN
          [((ppos.1, ppos.2 - 2), (0, -1))] := by
      simp only [Level.move_of, Level.move_down]
      rw [ht]
    refine ⟨?_, ?_⟩
    · rw [heq]; simp [MoveKey.vec, Direction.vec, sub_eq_add_neg]
    · intro s' hs'
      rw [heq] at hs'
      exact process_pushes_player lvl _ ppos .DOWN _ s' hs'
  · exact absurd hk (by simp [MoveKey.vec, Direction.vec, Prod.ext_iff])
  · exact absurd hk (by simp [MoveKey.vec, Direction.vec, Prod.ext_iff])
  · exact absurd hk (by simp [MoveKey.vec, Direction.vec, Prod.ext_iff])
  · exact absurd hk (by simp [MoveKey.vec, Direction.vec, Prod.ext_iff])
  · -- facing LEFT, key left: move forward
    have ht : tileAt lvl.tiles (ppos.1 - 1) ppos.2 = some Tile.GRILL := by
      simpa [Direction.vec, ← sub_eq_add_neg] using htile
    have heq : lvl.move_of .left ⟨⟨ppos, .LEFT⟩, ss⟩ =
        lvl.process_pushes ⟨⟨ppos, .LEFT⟩, ss⟩ ppos .LEFT
          [((ppos.1 - 2, ppos.2), (-1, 0))] := by
      simp only [Level.move_of, Level.move_left]
      rw [ht]
    refine ⟨?_, ?_⟩
    · rw [heq]; simp [MoveKey.vec, Direction.vec, sub_eq_add_neg]
    · intro s' hs'
      rw [heq] at hs'
      exact process_pushes_player lvl _ ppos .LEFT _ s' hs'
  · -- facing LEFT, key right: move backward
    have ht : tileAt lvl.tiles (ppos.1 - 1) ppos.2 = some Tile.GRILL := by
      simpa [Direction.vec, ← sub_eq_add_neg] using htile
    have heq : lvl.move_of .right ⟨⟨ppos, .LEFT⟩, ss⟩ =
        lvl.process_pushes ⟨⟨ppos, .LEFT⟩, ss⟩ ppos .LEFT
          [((ppos.1 - 1, ppos.2), (-1, 0))] := by
      simp only [Level.move_of, Level.move_right]
      rw [ht]
    refine ⟨?_, ?_⟩
    · rw [heq]; simp [MoveKey.vec, Direction.vec, sub_eq_add_neg]
    · intro s' hs'
      rw [heq] at hs'
      exact process_pushes_player lvl _ ppos .LEFT _ s' hs'
  · exact absurd hk (by simp [MoveKey.vec, Direction.vec, Prod.ext_iff])
  · exact absurd hk (by simp [MoveKey.vec, Direction.vec, Prod.ext_iff])
  · -- facing RIGHT, key left: move backward
    have ht : tileAt lvl.tiles (ppos.1 + 1) ppos.2 = some Tile.GRILL := by
      simpa [Direction.vec] using htile
    have heq : lvl.move_of .left ⟨⟨ppos, .RIGHT⟩, ss⟩ =
        lvl.process_pushes ⟨⟨ppos, .RIGHT⟩, ss⟩ ppos .RIGHT
          [((ppos.1 + 1, ppos.2), (1, 0))] := by
      simp only [Level.move_of, Level.move_left]
      rw [ht]
    refine ⟨?_, ?_⟩
    · rw [heq]; simp [MoveKey.vec, Direction.vec]
    · intro s' hs'
      rw [heq] at hs'
      exact process_pushes_player lvl _ ppos .RIGHT _ s' hs'
  · -- facing RIGHT, key right: move forward
    have ht : tileAt lvl.tiles (ppos.1 + 1) ppos.2 = some Tile.GRILL := by
      simpa [Direction.vec] using htile
    have heq : lvl.move_of .right ⟨⟨ppos, .RIGHT⟩, ss⟩ =
        lvl.process_pushes ⟨⟨ppos, .RIGHT⟩, ss⟩ ppos .RIGHT
          [((ppos.1 + 2, ppos.2), (1, 0))] := by
      simp only [Level.move_of, Level.move_right]
      rw [ht]
    refine ⟨?_, ?_⟩
    · rw [heq]; simp [MoveKey.vec, Direction.vec]
    · intro s' hs'
      rw [heq] at hs'
      exact process_pushes_player lvl _ ppos .RIGHT _ s' hs'

/-- Witness for C9 (amended) at `lvlC9`: forward move facing UP onto the
GRILL at (2,3). -/
theorem C9_amended_witness :
    lvlC9.move_of .up lvlC9.initial_state =
      lvlC9.process_pushes lvlC9.initial_state
        lvlC9.initial_state.player_state.pos
        lvlC9.initial_state.player_state.direction
        [((lvlC9.initial_state.player_state.pos.1 +
            (if MoveKey.up.vec = lvlC9.initial_state.player_state.direction.vec
              then 2 else 1) *
              lvlC9.initial_state.player_state.direction.vec.1,
           lvlC9.initial_state.player_state.pos.2 +
            (if MoveKey.up.vec = lvlC9.initial_state.player_state.direction.vec
              then 2 else 1) *
              lvlC9.initial_state.player_state.direction.vec.2),
          lvlC9.initial_state.player_state.direction.vec)] ∧
    ∀ s' ∈ (lvlC9.move_of .up lvlC9.initial_state).getD [],
      s'.player_state = lvlC9.initial_state.player_state :=
  C9_amended lvlC9 lvlC9.initial_state .up (Or.inl rfl) rfl

/-- `cellsOf` unfolds over cons. -/
theorem cellsOf_cons (s : SausageState) (rest : List SausageState) :
    cellsOf (s :: rest) = s.pos :: s.second_cell :: cellsOf rest := rfl

/-- What a successful `sausage_lookup_from` tells us: the index is in range
(relative to the running offset) and the queried cell is one of the found
sausage's two cells. -/
theorem sausage_lookup_from_spec :
    ∀ (ss : List SausageState) (k : ℕ) (p : ℤ × ℤ) (j : ℕ),
      sausage_lookup_from k ss p = some j →
      k ≤ j ∧ j - k < ss.length ∧
        (p = (ss.getD (j - k) dummySausage).pos ∨
          p = (ss.getD (j - k) dummySausage).second_cell) := by
  intro ss
  induction ss with
  | nil => intro k p j h; simp [sausage_lookup_from] at h
  | cons s rest ih =>
    intro k p j h
    cases hrec : sausage_lookup_from (k + 1) rest p with
    | some j' =>
      obtain rfl : j' = j := by
        rw [sausage_lookup_from, hrec] at h
        exact Option.some.inj h
      obtain ⟨h1, h2, h3⟩ := ih (k + 1) p j' hrec
      have hj : j' - k = (j' - (k + 1)) + 1 := by omega
      refine ⟨by omega, by simp; omega, ?_⟩
      rw [hj, List.getD_cons_succ]
      exact h3
    | none =>
      by_cases hc : p = s.pos ∨ p = s.second_cell
      · obtain rfl : k = j := by
          rw [sausage_lookup_from, hrec] at h
          simp only [hc, if_true] at h
          exact Option.some.inj h
        refine ⟨le_refl _, by simp, ?_⟩
        simpa using hc
      · exfalso
        rw [sausage_lookup_from, hrec] at h
        simp [hc] at h

/-- `sausage_lookup` returns an in-range index of a sausage owning the cell. -/
theorem sausage_lookup_spec (ss : List SausageState) (p : ℤ × ℤ) (j : ℕ)
    (h : sausage_lookup ss p = some j) :
    j < ss.length ∧
      (p = (ss.getD j dummySausage).pos ∨
        p = (ss.getD j dummySausage).second_cell) := by
  obtain ⟨_, h2, h3⟩ := sausage_lookup_from_spec ss 0 p j h
  simp only [Nat.sub_zero] at h2 h3
  exact ⟨h2, h3⟩

/-- Both cells of the `i`-th sausage are in `cellsOf`. -/
theorem getD_cells_mem (ss : List SausageState) :
    ∀ i, i < ss.length →
      (ss.getD i dummySausage).pos ∈ cellsOf ss ∧
      (ss.getD i dummySausage).second_cell ∈ cellsOf ss := by
  induction ss with
  | nil => intro i h; simp at h
  | cons s rest ih =>
    intro i h
    cases i with
    | zero => simp [cellsOf_cons]
    | succ n =>
      have hn := ih n (by simpa using h)
      rw [List.getD_cons_succ, cellsOf_cons]
      exact ⟨List.mem_cons_of_mem _ (List.mem_cons_of_mem _ hn.1),
        List.mem_cons_of_mem _ (List.mem_cons_of_mem _ hn.2)⟩

/-- Every member of a fold-max list is below the fold. -/
theorem dirDot_le_foldr (d : ℤ × ℤ) :
    ∀ (l : List (ℤ × ℤ)) (c : ℤ × ℤ), c ∈ l →
      dirDot c d ≤ l.foldr (fun c m => max (dirDot c d) m) 0 := by
  intro l
  induction l with
  | nil => intro c h; simp at h
  | cons a rest ih =>
    intro c h
    rcases List.mem_cons.mp h with rfl | h'
    · simp
    · exact le_trans (ih c h') (by simp)

/-- An occupied cell's coordinate along `d` is at most `dirBound`. -/
theorem dirDot_le_dirBound (ss : List SausageState) (d c : ℤ × ℤ)
    (h : c ∈ cellsOf ss) : dirDot c d ≤ dirBound ss d :=
  dirDot_le_foldr d (cellsOf ss) c h

/-- A push whose target is still an occupied cell has measure at least 2. -/
theorem pushMeasure_ge_two (ss : List SausageState) (t d : ℤ × ℤ)
    (h : dirDot t d ≤ dirBound ss d) : 2 ≤ pushMeasure ss (t, d) := by
  simp only [pushMeasure]
  omega

/-- Advancing a push target along its direction decreases the measure. -/
theorem pushMeasure_sub (ss : List SausageState) (t t' d : ℤ × ℤ) (k : ℕ)
    (h : dirDot t' d = dirDot t d + k) :
    pushMeasure ss (t', d) = pushMeasure ss (t, d) - k := by
  simp only [pushMeasure, h]
  omega

theorem pow3_sub_two (a : ℕ) (h : 2 ≤ a) : 3 ^ (a - 2) + 1 ≤ 3 ^ a := by
  obtain ⟨b, rfl⟩ : ∃ b, a = b + 2 := ⟨a - 2, by omega⟩
  have h1 : 1 ≤ 3 ^ b := Nat.one_le_pow _ _ (by norm_num)
  simp [pow_succ]
  omega

theorem pow3_sub_one (a : ℕ) (h : 2 ≤ a) :
    3 ^ (a - 1) + (3 ^ (a - 1) + 1) ≤ 3 ^ a := by
  obtain ⟨b, rfl⟩ : ∃ b, a = b + 1 := ⟨a - 1, by omega⟩
  have h1 : 1 ≤ 3 ^ b := Nat.one_le_pow _ _ (by norm_num)
  simp [pow_succ]
  omega

/-- Splitting the potential at the popped (last) element. -/
theorem pushPotential_split (ss : List SausageState) (q : Push)
    (qs : List Push) :
    pushPotential ss (q :: qs) =
      pushPotential ss ((q :: qs).dropLast) +
        3 ^ pushMeasure ss ((q :: qs).getLast (List.cons_ne_nil q qs)) := by
  conv_lhs => rw [← List.dropLast_append_getLast (List.cons_ne_nil q qs)]
  simp [pushPotential]

theorem pushPotential_append (ss : List SausageState) (l1 l2 : List Push) :
    pushPotential ss (l1 ++ l2) = pushPotential ss l1 + pushPotential ss l2 := by
  simp [pushPotential]

/-- Appended pushes inherit the popped push's direction. -/
theorem new_pushes_dir (s : SausageState) (push : Push) :
    ∀ p ∈ new_pushes s push, p.2 = push.2 := by
  intro p hp
  unfold new_pushes at hp
  split at hp <;> split at hp <;>
    simp only [List.mem_singleton, List.mem_cons, List.not_mem_nil, or_false]
      at hp
  · rw [hp]
  · rcases hp with rfl | rfl <;> rfl
  · rw [hp]
  · rcases hp with rfl | rfl <;> rfl


theorem pushMeasure_sub_one (ss : List SausageState) (a t d : ℤ × ℤ)
    (h : dirDot a d = dirDot t d + 1) :
    pushMeasure ss (a, d) = pushMeasure ss (t, d) - 1 := by
  simp only [pushMeasure, h]
  omega

theorem pushMeasure_sub_two (ss : List SausageState) (a t d : ℤ × ℤ)
    (h : dirDot a d = dirDot t d + 2) :
    pushMeasure ss (a, d) = pushMeasure ss (t, d) - 2 := by
  simp only [pushMeasure, h]
  omega

/-- A lengthwise continuation (one push, two cells further along) keeps the
appended potential below the popped push's power. -/
theorem pot_one (ss : List SausageState) (a t d : ℤ × ℤ)
    (ha : dirDot a d = dirDot t d + 2)
    (hm : 2 ≤ pushMeasure ss (t, d)) :
    pushPotential ss [(a, d)] + 1 ≤ 3 ^ pushMeasure ss (t, d) := by
  have hsub := pushMeasure_sub_two ss a t d ha
  simp only [pushPotential, List.map, List.sum_cons, List.sum_nil, hsub]
  have := pow3_sub_two (pushMeasure ss (t, d)) hm
  omega

/-- A roll continuation (two pushes, one cell further along) keeps the
appended potential below the popped push's power. -/
theorem pot_two (ss : List SausageState) (a b t d : ℤ × ℤ)
    (ha : dirDot a d = dirDot t d + 1) (hb : dirDot b d = dirDot t d + 1)
    (hm : 2 ≤ pushMeasure ss (t, d)) :
    pushPotential ss [(a, d), (b, d)] + 1 ≤ 3 ^ pushMeasure ss (t, d) := by
  have hsa := pushMeasure_sub_one ss a t d ha
  have hsb := pushMeasure_sub_one ss b t d hb
  simp only [pushPotential, List.map, List.sum_cons, List.sum_nil, hsa, hsb]
  have := pow3_sub_one (pushMeasure ss (t, d)) hm
  omega

/-- One worklist iteration strictly shrinks the potential: the pushes
appended for a struck sausage sum strictly below the popped push's power. -/
theorem new_pushes_potential (ss : List SausageState) (push : Push) (i : ℕ)
    (hd : push.2 ∈ unitDirs) (hlk : sausage_lookup ss push.1 = some i) :
    pushPotential ss (new_pushes (ss.getD i dummySausage) push) + 1 ≤
      3 ^ pushMeasure ss push := by
  obtain ⟨hlen, hcell⟩ := sausage_lookup_spec ss push.1 i hlk
  have hcells := getD_cells_mem ss i hlen
  have hdot : dirDot push.1 push.2 ≤ dirBound ss push.2 := by
    rcases hcell with h | h <;> rw [h]
    · exact dirDot_le_dirBound ss push.2 _ hcells.1
    · exact dirDot_le_dirBound ss push.2 _ hcells.2
  obtain ⟨t, d⟩ := push
  have hm2 : 2 ≤ pushMeasure ss (t, d) := pushMeasure_ge_two ss t d hdot
  simp only [unitDirs, List.mem_cons, List.not_mem_nil, or_false] at hd
  rcases horient : (ss.getD i dummySausage).orientation with _ | _ <;>
    rcases hd with rfl | rfl | rfl | rfl
  · -- HORIZONTAL, d = (0,1): roll
    have ht2 : t.2 = (ss.getD i dummySausage).pos.2 := by
      rcases hcell with h | h
      · rw [show t = (ss.getD i dummySausage).pos from h]
      · rw [show t = (ss.getD i dummySausage).second_cell from h]
        simp only [SausageState.second_cell, horient]
    rw [show new_pushes (ss.getD i dummySausage) (t, ((0 : ℤ), (1 : ℤ))) =
        [(((ss.getD i dummySausage).pos.1,
            (ss.getD i dummySausage).pos.2 + 1), ((0 : ℤ), (1 : ℤ))),
         (((ss.getD i dummySausage).pos.1 + 1,
            (ss.getD i dummySausage).pos.2 + 1), ((0 : ℤ), (1 : ℤ)))] from by
      unfold new_pushes; rw [horient]; norm_num]
    exact pot_two ss _ _ t _ (by simp [dirDot, ht2]) (by simp [dirDot, ht2])
      hm2
  · -- HORIZONTAL, d = (0,-1): roll
    have ht2 : t.2 = (ss.getD i dummySausage).pos.2 := by
      rcases hcell with h | h
      · rw [show t = (ss.getD i dummySausage).pos from h]
      · rw [show t = (ss.getD i dummySausage).second_cell from h]
        simp only [SausageState.second_cell, horient]
    rw [show new_pushes (ss.getD i dummySausage) (t, ((0 : ℤ), (-1 : ℤ))) =
        [(((ss.getD i dummySausage).pos.1,
            (ss.getD i dummySausage).pos.2 + -1), ((0 : ℤ), (-1 : ℤ))),
         (((ss.getD i dummySausage).pos.1 + 1,
            (ss.getD i dummySausage).pos.2 + -1), ((0 : ℤ), (-1 : ℤ)))] from by
      unfold new_pushes; rw [horient]; norm_num]
    refine pot_two ss _ _ t _ ?_ ?_ hm2 <;> (simp [dirDot, ht2]; try ring)
  · -- HORIZONTAL, d = (-1,0): lengthwise
    rw [show new_pushes (ss.getD i dummySausage) (t, ((-1 : ℤ), (0 : ℤ))) =
        [((t.1 + 2 * -1, t.2), ((-1 : ℤ), (0 : ℤ)))] from by
      unfold new_pushes; rw [horient]; norm_num]
    refine pot_one ss _ t _ ?_ hm2
    simp [dirDot]
    try ring
  · -- HORIZONTAL, d = (1,0): lengthwise
    rw [show new_pushes (ss.getD i dummySausage) (t, ((1 : ℤ), (0 : ℤ))) =
        [((t.1 + 2 * 1, t.2), ((1 : ℤ), (0 : ℤ)))] from by
      unfold new_pushes; rw [horient]; norm_num]
    refine pot_one ss _ t _ ?_ hm2
    simp [dirDot]
    try ring
  · -- VERTICAL, d = (0,1): lengthwise
    rw [show new_pushes (ss.getD i dummySausage) (t, ((0 : ℤ), (1 : ℤ))) =
        [((t.1, t.2 + 2 * 1), ((0 : ℤ), (1 : ℤ)))] from by
      unfold new_pushes; rw [horient]; norm_num]
    refine pot_one ss _ t _ ?_ hm2
    simp [dirDot]
    try ring
  · -- VERTICAL, d = (0,-1): lengthwise
    rw [show new_pushes (ss.getD i dummySausage) (t, ((0 : ℤ), (-1 : ℤ))) =
        [((t.1, t.2 + 2 * -1), ((0 : ℤ), (-1 : ℤ)))] from by
      unfold new_pushes; rw [horient]; norm_num]
    refine pot_one ss _ t _ ?_ hm2
    simp [dirDot]
    try ring
  · -- VERTICAL, d = (-1,0): roll
    have ht1 : t.1 = (ss.getD i dummySausage).pos.1 := by
      rcases hcell with h | h
      · rw [show t = (ss.getD i dummySausage).pos from h]
      · rw [show t = (ss.getD i dummySausage).second_cell from h]
        simp only [SausageState.second_cell, horient]
    rw [show new_pushes (ss.getD i dummySausage) (t, ((-1 : ℤ), (0 : ℤ))) =
        [(((ss.getD i dummySausage).pos.1 + -1,
            (ss.getD i dummySausage).pos.2), ((-1 : ℤ), (0 : ℤ))),
         (((ss.getD i dummySausage).pos.1 + -1,
            (ss.getD i dummySausage).pos.2 + 1), ((-1 : ℤ), (0 : ℤ)))] from by
      unfold new_pushes; rw [horient]; norm_num]
    refine pot_two ss _ _ t _ ?_ ?_ hm2 <;> (simp [dirDot, ht1]; try ring)
  · -- VERTICAL, d = (1,0): roll
    have ht1 : t.1 = (ss.getD i dummySausage).pos.1 := by
      rcases hcell with h | h
      · rw [show t = (ss.getD i dummySausage).pos from h]
      · rw [show t = (ss.getD i dummySausage).second_cell from h]
        simp only [SausageState.second_cell, horient]
    rw [show new_pushes (ss.getD i dummySausage) (t, ((1 : ℤ), (0 : ℤ))) =
        [(((ss.getD i dummySausage).pos.1 + 1,
            (ss.getD i dummySausage).pos.2), ((1 : ℤ), (0 : ℤ))),
         (((ss.getD i dummySausage).pos.1 + 1,
            (ss.getD i dummySausage).pos.2 + 1), ((1 : ℤ), (0 : ℤ)))] from by
      unfold new_pushes; rw [horient]; norm_num]
    refine pot_two ss _ _ t _ ?_ ?_ hm2 <;> (simp [dirDot, ht1]; try ring)

/-- C6 (amended, core): the worklist of `process_pushes` terminates whenever
every pending push has a unit direction — which holds for every push list the
four move functions construct, since appended pushes keep the popped push's
direction.  The potential `pushPotential` strictly decreases each iteration,
so any fuel exceeding it suffices. -/
theorem pushes_loop_terminates (ss : List SausageState) :
    ∀ (fuel : ℕ) (pushes : List Push) (sp : List (Option Push))
      (lastS : Option SausageState) (tr : List (ℕ × Push)),
      (∀ p ∈ pushes, p.2 ∈ unitDirs) →
      pushPotential ss pushes < fuel →
      (process_pushes_loop ss fuel pushes sp lastS tr).isSome := by
  intro fuel
  induction fuel with
  | zero => intro pushes sp lastS tr _ h; exact absurd h (Nat.not_lt_zero _)
  | succ f ih =>
    intro pushes sp lastS tr hunit hpot
    match pushes with
    | [] => simp [process_pushes_loop]
    | q :: qs =>
      have hpush_mem : (q :: qs).getLast (List.cons_ne_nil q qs) ∈ q :: qs :=
        List.getLast_mem _
      have hsplit := pushPotential_split ss q qs
      have hd : ((q :: qs).getLast (List.cons_ne_nil q qs)).2 ∈ unitDirs :=
        hunit _ hpush_mem
      have hrest_unit : ∀ p ∈ (q :: qs).dropLast, p.2 ∈ unitDirs :=
        fun p hp => hunit p ((List.dropLast_sublist (q :: qs)).subset hp)
      have hpow1 : 1 ≤
          3 ^ pushMeasure ss ((q :: qs).getLast (List.cons_ne_nil q qs)) :=
        Nat.one_le_pow _ _ (by norm_num)
      rw [process_pushes_loop]
      cases hlk : sausage_lookup ss
          ((q :: qs).getLast (List.cons_ne_nil q qs)).1 with
      | none =>
        apply ih _ sp lastS tr hrest_unit
        omega
      | some i =>
        apply ih
        · intro p hp
          rcases List.mem_append.mp hp with hp | hp
          · exact hrest_unit p hp
          · rw [new_pushes_dir _ _ p hp]
            exact hd
        · have hnew := new_pushes_potential ss
            ((q :: qs).getLast (List.cons_ne_nil q qs)) i hd hlk
          rw [pushPotential_append]
          omega

/-- C6 (amended): with the fuel bound `loop_fuel` actually used by
`process_pushes`, the worklist loop always completes (returns `some`) when the
pending pushes have unit directions, as they do for all four actions.  The
"each sausage is pushed at most once" half of the original claim is false —
see the counterexample — so termination is what remains. -/
theorem C6_amended (ss : List SausageState) (pushes : List Push)
    (sp : List (Option Push)) (lastS : Option SausageState)
    (tr : List (ℕ × Push)) (hunit : ∀ p ∈ pushes, p.2 ∈ unitDirs) :
    (process_pushes_loop ss (loop_fuel ss pushes) pushes sp lastS tr).isSome :=
  pushes_loop_terminates ss _ pushes sp lastS tr hunit
    (Nat.lt_succ_self _)

/-- Witness for C6 (amended) at the double-push fixture. -/
theorem C6_amended_witness :
    (process_pushes_loop [sC6] (loop_fuel [sC6] pushesC6) pushesC6
      (List.replicate 1 none) none []).isSome :=
  C6_amended [sC6] pushesC6 (List.replicate 1 none) none [] (by decide)

/-- In-bounds indexing: on a rectangular board, `tileAt` succeeds for any
coordinates inside the grid. -/
theorem tileAt_isSome (tiles : List (List Tile)) (hgt : ℕ)
    (hrect : ∀ row ∈ tiles, row.length = hgt) (x y : ℤ)
    (hx : 0 ≤ x) (hx2 : x < tiles.length) (hy : 0 ≤ y) (hy2 : y < hgt) :
    (tileAt tiles x y).isSome := by
  have hxe : (if x < 0 then x + (tiles.length : ℤ) else x) = x := by
    rw [if_neg]; omega
  simp only [tileAt, pyGet, hxe]
  rw [if_pos ⟨hx, hx2⟩]
  cases hrow : tiles.get? x.toNat with
  | none =>
    have := List.get?_eq_none.mp hrow
    omega
  | some row =>
    have hmem : row ∈ tiles := List.get?_mem hrow
    have hrl := hrect row hmem
    have hye : (if y < 0 then y + (row.length : ℤ) else y) = y := by
      rw [if_neg]; omega
    simp only [Option.some_bind, hye]
    rw [if_pos ⟨hy, by omega⟩]
    cases hg : row.get? y.toNat with
    | none =>
      have := List.get?_eq_none.mp hg
      omega
    | some t => simp

/-- The burn-check tile reads for one pushed sausage stay on the board when
the sausage's anchor keeps a two-cell margin and the push direction is a unit
vector. -/
theorem apply_push_isSome (tiles : List (List Tile)) (hgt : ℕ)
    (hrect : ∀ row ∈ tiles, row.length = hgt) (lastS old : SausageState)
    (push : Push) (hdunit : push.2 ∈ unitDirs)
    (hx : 1 ≤ old.pos.1) (hx2 : old.pos.1 + 2 < (tiles.length : ℤ))
    (hy : 1 ≤ old.pos.2) (hy2 : old.pos.2 + 2 < (hgt : ℤ)) :
    (apply_push tiles lastS old push).isSome := by
  have hdb : -1 ≤ push.2.1 ∧ push.2.1 ≤ 1 ∧ -1 ≤ push.2.2 ∧ push.2.2 ≤ 1 := by
    simp only [unitDirs, List.mem_cons, List.not_mem_nil, or_false] at hdunit
    rcases hdunit with h | h | h | h <;> rw [h] <;> norm_num
  have h1 : (tileAt tiles (old.pos.1 + push.2.1)
      (old.pos.2 + push.2.2)).isSome :=
    tileAt_isSome tiles hgt hrect _ _ (by omega) (by omega) (by omega)
      (by omega)
  have h2 : (tileAt tiles (old.pos.1 + push.2.1 + 1)
      (old.pos.2 + push.2.2)).isSome :=
    tileAt_isSome tiles hgt hrect _ _ (by omega) (by omega) (by omega)
      (by omega)
  have h3 : (tileAt tiles (old.pos.1 + push.2.1)
      (old.pos.2 + push.2.2 + 1)).isSome :=
    tileAt_isSome tiles hgt hrect _ _ (by omega) (by omega) (by omega)
      (by omega)
  obtain ⟨t1, ht1⟩ := Option.isSome_iff_exists.mp h1
  obtain ⟨t2, ht2⟩ := Option.isSome_iff_exists.mp h2
  obtain ⟨t3, ht3⟩ := Option.isSome_iff_exists.mp h3
  simp only [apply_push]
  split
  · simp only [ht1, ht2]
    split
    · simp
    · split <;> simp
  · simp only [ht1, ht3]
    split
    · simp
    · split <;> simp

/-- The update loop never raises when each pushed sausage has margin-2 anchor
coordinates, pushes are unit, and the stale `sausage` variable was assigned
whenever some push was recorded. -/
theorem apply_pushes_isSome (tiles : List (List Tile)) (hgt : ℕ)
    (hrect : ∀ row ∈ tiles, row.length = hgt) (lastS : Option SausageState) :
    ∀ (l : List (SausageState × Option Push)),
      (∀ e ∈ l, 1 ≤ e.1.pos.1 ∧ e.1.pos.1 + 2 < (tiles.length : ℤ) ∧
        1 ≤ e.1.pos.2 ∧ e.1.pos.2 + 2 < (hgt : ℤ)) →
      (∀ e ∈ l, ∀ p, e.2 = some p → p.2 ∈ unitDirs) →
      (∀ e ∈ l, e.2.isSome → lastS.isSome) →
      (apply_pushes tiles lastS l).isSome := by
  intro l
  induction l with
  | nil => intro _ _ _; simp [apply_pushes]
  | cons e rest ih =>
    intro hm hu hs
    obtain ⟨old, po⟩ := e
    cases po with
    | none =>
      have hr := ih (fun e he => hm e (List.mem_cons_of_mem _ he))
        (fun e he => hu e (List.mem_cons_of_mem _ he))
        (fun e he => hs e (List.mem_cons_of_mem _ he))
      simp only [apply_pushes]
      obtain ⟨r, hr'⟩ := Option.isSome_iff_exists.mp hr
      rw [hr']
      simp
    | some p =>
      have hls : lastS.isSome := hs (old, some p) (List.mem_cons_self _ _)
        (by simp)
      obtain ⟨ls, hls'⟩ := Option.isSome_iff_exists.mp hls
      have hmo := hm (old, some p) (List.mem_cons_self _ _)
      have hap : (apply_push tiles ls old p).isSome :=
        apply_push_isSome tiles hgt hrect ls old p
          (hu (old, some p) (List.mem_cons_self _ _) p rfl)
          hmo.1 hmo.2.1 hmo.2.2.1 hmo.2.2.2
      have hr := ih (fun e he => hm e (List.mem_cons_of_mem _ he))
        (fun e he => hu e (List.mem_cons_of_mem _ he))
        (fun e he => hs e (List.mem_cons_of_mem _ he))
      obtain ⟨r, hr'⟩ := Option.isSome_iff_exists.mp hr
      simp only [apply_pushes, hls']
      obtain ⟨a, ha⟩ := Option.isSome_iff_exists.mp hap
      rw [ha]
      cases a with
      | none => simp
      | some s' =>
        rw [hls'] at hr'
        simp [hr']

/-- Post-conditions of the worklist loop needed by the in-bounds theorem:
recorded pushes keep unit directions, and if any push was recorded then the
`sausage` variable was assigned. -/
theorem pushes_loop_post (ss : List SausageState) :
    ∀ (fuel : ℕ) (pushes : List Push) (sp : List (Option Push))
      (lastS : Option SausageState) (tr : List (ℕ × Push))
      (sp' : List (Option Push)) (lastS' : Option SausageState)
      (tr' : List (ℕ × Push)),
      process_pushes_loop ss fuel pushes sp lastS tr =
        some (sp', lastS', tr') →
      (∀ p ∈ pushes, p.2 ∈ unitDirs) →
      (∀ o ∈ sp, ∀ p, o = some p → p.2 ∈ unitDirs) →
      ((∃ o ∈ sp, o.isSome) → lastS.isSome) →
      (∀ o ∈ sp', ∀ p, o = some p → p.2 ∈ unitDirs) ∧
        ((∃ o ∈ sp', o.isSome) → lastS'.isSome) := by
  intro fuel
  induction fuel with
  | zero =>
    intro pushes sp lastS tr sp' lastS' tr' heq hu hsp hls
    cases pushes with
    | nil =>
      simp only [process_pushes_loop] at heq
      cases heq
      exact ⟨hsp, hls⟩
    | cons q qs => simp [process_pushes_loop] at heq
  | succ f ih =>
    intro pushes sp lastS tr sp' lastS' tr' heq hu hsp hls
    cases pushes with
    | nil =>
      simp only [process_pushes_loop] at heq
      cases heq
      exact ⟨hsp, hls⟩
    | cons q qs =>
      rw [process_pushes_loop] at heq
      have hrest_unit : ∀ p ∈ (q :: qs).dropLast, p.2 ∈ unitDirs :=
        fun p hp => hu p ((List.dropLast_sublist (q :: qs)).subset hp)
      have hlast_unit : ((q :: qs).getLast (List.cons_ne_nil q qs)).2 ∈
          unitDirs := hu _ (List.getLast_mem _)
      cases hlk : sausage_lookup ss
          ((q :: qs).getLast (List.cons_ne_nil q qs)).1 with
      | none =>
        rw [hlk] at heq
        exact ih _ sp lastS tr sp' lastS' tr' heq hrest_unit hsp hls
      | some i =>
        rw [hlk] at heq
        refine ih _ _ _ _ sp' lastS' tr' heq ?_ ?_ ?_
        · intro p hp
          rcases List.mem_append.mp hp with hp | hp
          · exact hrest_unit p hp
          · rw [new_pushes_dir _ _ p hp]
            exact hlast_unit
        · intro o ho p hop
          rcases List.mem_or_eq_of_mem_set ho with ho | ho
          · exact hsp o ho p hop
          · rw [ho] at hop
            cases hop
            exact hlast_unit
        · intro _
          simp

/-- `process_pushes` never raises when pushes are unit-directed and every
sausage anchor has a two-cell margin to the right/top grid edges and one cell
to the left/bottom. -/
theorem process_pushes_isSome (lvl : Level) (hgt : ℕ)
    (hrect : ∀ row ∈ lvl.tiles, row.length = hgt) (state : GameState)
    (np : ℤ × ℤ) (nd : Direction) (pushes : List Push)
    (hunit : ∀ p ∈ pushes, p.2 ∈ unitDirs)
    (hmargin : ∀ t ∈ state.sausage_states,
      1 ≤ t.pos.1 ∧ t.pos.1 + 2 < (lvl.tiles.length : ℤ) ∧
        1 ≤ t.pos.2 ∧ t.pos.2 + 2 < (hgt : ℤ)) :
    (lvl.process_pushes state np nd pushes).isSome := by
  have hloop := pushes_loop_terminates state.sausage_states
    (loop_fuel state.sausage_states pushes) pushes
    (List.replicate state.sausage_states.length none) none [] hunit
    (Nat.lt_succ_self _)
  obtain ⟨⟨sp, lastS, tr⟩, heq⟩ := Option.isSome_iff_exists.mp hloop
  have hpost := pushes_loop_post state.sausage_states _ pushes _ none [] sp
    lastS tr heq hunit
    (fun o ho p hop => absurd hop
      (by rw [List.eq_of_mem_replicate ho]; simp))
    (by rintro ⟨o, ho, hso⟩
        rw [List.eq_of_mem_replicate ho] at hso
        simp at hso)
  have happ : (apply_pushes lvl.tiles lastS
      (state.sausage_states.zip sp)).isSome := by
    apply apply_pushes_isSome lvl.tiles hgt hrect lastS
    · intro e he
      obtain ⟨a, b⟩ := e
      exact hmargin a (List.of_mem_zip he).1
    · intro e he p hop
      obtain ⟨a, b⟩ := e
      exact hpost.1 b (List.of_mem_zip he).2 p hop
    · intro e he hse
      obtain ⟨a, b⟩ := e
      exact hpost.2 ⟨b, (List.of_mem_zip he).2, hse⟩
  obtain ⟨r, hre⟩ := Option.isSome_iff_exists.mp happ
  simp only [Level.process_pushes, heq, hre]
  cases r with
  | none => simp
  | some newss => simp

theorem units_single (t d : ℤ × ℤ) (hd : d ∈ unitDirs) :
    ∀ p ∈ [(t, d)], p.2 ∈ unitDirs := by
  intro p hp
  simp only [List.mem_singleton] at hp
  rw [hp]
  exact hd

theorem units_pair (t1 d1 t2 d2 : ℤ × ℤ) (h1 : d1 ∈ unitDirs)
    (h2 : d2 ∈ unitDirs) : ∀ p ∈ [(t1, d1), (t2, d2)], p.2 ∈ unitDirs := by
  intro p hp
  rcases (by simpa using hp : p = (t1, d1) ∨ p = (t2, d2)) with rfl | rfl
  · exact h1
  · exact h2

/-- C7 (amended): the move functions perform no bounds checks of their own, but
when the grid is rectangular, the player stays one cell away from every edge,
and every sausage anchor is at least one cell from the low edges and three
cells from the high edges, every `pyGet` lands in range and no move raises. -/
theorem C7_amended (lvl : Level) (hgt : ℕ) (s : GameState) (k : MoveKey)
    (hrect : ∀ row ∈ lvl.tiles, row.length = hgt)
    (hplayer : 1 ≤ s.player_state.pos.1 ∧
      s.player_state.pos.1 + 1 < (lvl.tiles.length : ℤ) ∧
      1 ≤ s.player_state.pos.2 ∧ s.player_state.pos.2 + 1 < (hgt : ℤ))
    (hsaus : ∀ t ∈ s.sausage_states, 1 ≤ t.pos.1 ∧
      t.pos.1 + 2 < (lvl.tiles.length : ℤ) ∧
      1 ≤ t.pos.2 ∧ t.pos.2 + 2 < (hgt : ℤ)) :
    (lvl.move_of k s).isSome := by
  obtain ⟨hp1, hp2, hp3, hp4⟩ := hplayer
  cases k
  case up =>
    cases hpd : s.player_state.direction
    case UP =>
      have ht := tileAt_isSome lvl.tiles hgt hrect s.player_state.pos.1
        (s.player_state.pos.2 + 1) (by omega) (by omega) (by omega) (by omega)
      obtain ⟨t, ht'⟩ := Option.isSome_iff_exists.mp ht
      simp only [Level.move_of, Level.move_up, hpd, ht']
      cases t
      · exact process_pushes_isSome lvl hgt hrect _ _ _ _ (by simp) hsaus
      · exact process_pushes_isSome lvl hgt hrect _ _ _ _
          (units_single _ _ (by decide)) hsaus
      · exact process_pushes_isSome lvl hgt hrect _ _ _ _
          (units_single _ _ (by decide)) hsaus
    case DOWN =>
      have ht := tileAt_isSome lvl.tiles hgt hrect s.player_state.pos.1
        (s.player_state.pos.2 - 1) (by omega) (by omega) (by omega) (by omega)
      obtain ⟨t, ht'⟩ := Option.isSome_iff_exists.mp ht
      simp only [Level.move_of, Level.move_up, hpd, ht']
      cases t
      · exact process_pushes_isSome lvl hgt hrect _ _ _ _ (by simp) hsaus
      · exact process_pushes_isSome lvl hgt hrect _ _ _ _
          (units_single _ _ (by decide)) hsaus
      · exact process_pushes_isSome lvl hgt hrect _ _ _ _
          (units_single _ _ (by decide)) hsaus
    case LEFT =>
      simp only [Level.move_of, Level.move_up, hpd]
      exact process_pushes_isSome lvl hgt hrect _ _ _ _
        (units_pair _ _ _ _ (by decide) (by decide)) hsaus
    case RIGHT =>
      simp only [Level.move_of, Level.move_up, hpd]
      exact process_pushes_isSome lvl hgt hrect _ _ _ _
        (units_pair _ _ _ _ (by decide) (by decide)) hsaus
  case down =>
    cases hpd : s.player_state.direction
    case UP =>
      have ht := tileAt_isSome lvl.tiles hgt hrect s.player_state.pos.1
        (s.player_state.pos.2 + 1) (by omega) (by omega) (by omega) (by omega)
      obtain ⟨t, ht'⟩ := Option.isSome_iff_exists.mp ht
      simp only [Level.move_of, Level.move_down, hpd, ht']
      cases t
      · exact process_pushes_isSome lvl hgt hrect _ _ _ _ (by simp) hsaus
      · exact process_pushes_isSome lvl hgt hrect _ _ _ _
          (units_single _ _ (by decide)) hsaus
      · exact process_pushes_isSome lvl hgt hrect _ _ _ _
          (units_single _ _ (by decide)) hsaus
    case DOWN =>
      have ht := tileAt_isSome lvl.tiles hgt hrect s.player_state.pos.1
        (s.player_state.pos.2 - 1) (by omega) (by omega) (by omega) (by omega)
      obtain ⟨t, ht'⟩ := Option.isSome_iff_exists.mp ht
      simp only [Level.move_of, Level.move_down, hpd, ht']
      cases t
      · exact process_pushes_isSome lvl hgt hrect _ _ _ _ (by simp) hsaus
      · exact process_pushes_isSome lvl hgt hrect _ _ _ _
          (units_single _ _ (by decide)) hsaus
      · exact process_pushes_isSome lvl hgt hrect _ _ _ _
          (units_single _ _ (by decide)) hsaus
    case LEFT =>
      simp only [Level.move_of, Level.move_down, hpd]
      exact process_pushes_isSome lvl hgt hrect _ _ _ _
        (units_pair _ _ _ _ (by decide) (by decide)) hsaus
    case RIGHT =>
      simp only [Level.move_of, Level.move_down, hpd]
      exact process_pushes_isSome lvl hgt hrect _ _ _ _
        (units_pair _ _ _ _ (by decide) (by decide)) hsaus
  case left =>
    cases hpd : s.player_state.direction
    case UP =>
      simp only [Level.move_of, Level.move_left, hpd]
      exact process_pushes_isSome lvl hgt hrect _ _ _ _
        (units_pair _ _ _ _ (by decide) (by decide)) hsaus
    case DOWN =>
      simp only [Level.move_of, Level.move_left, hpd]
      exact process_pushes_isSome lvl hgt hrect _ _ _ _
        (units_pair _ _ _ _ (by decide) (by decide)) hsaus
    case LEFT =>
      have ht := tileAt_isSome lvl.tiles hgt hrect (s.player_state.pos.1 - 1)
        s.player_state.pos.2 (by omega) (by omega) (by omega) (by omega)
      obtain ⟨t, ht'⟩ := Option.isSome_iff_exists.mp ht
      simp only [Level.move_of, Level.move_left, hpd, ht']
      cases t
      · exact process_pushes_isSome lvl hgt hrect _ _ _ _ (by simp) hsaus
      · exact process_pushes_isSome lvl hgt hrect _ _ _ _
          (units_single _ _ (by decide)) hsaus
      · exact process_pushes_isSome lvl hgt hrect _ _ _ _
          (units_single _ _ (by decide)) hsaus
    case RIGHT =>
      have ht := tileAt_isSome lvl.tiles hgt hrect (s.player_state.pos.1 + 1)
        s.player_state.pos.2 (by omega) (by omega) (by omega) (by omega)
      obtain ⟨t, ht'⟩ := Option.isSome_iff_exists.mp ht
      simp only [Level.move_of, Level.move_left, hpd, ht']
      cases t
      · exact process_pushes_isSome lvl hgt hrect _ _ _ _ (by simp) hsaus
      · exact process_pushes_isSome lvl hgt hrect _ _ _ _
          (units_single _ _ (by decide)) hsaus
      · exact process_pushes_isSome lvl hgt hrect _ _ _ _
          (units_single _ _ (by decide)) hsaus
  case right =>
    cases hpd : s.player_state.direction
    case UP =>
      simp only [Level.move_of, Level.move_right, hpd]
      exact process_pushes_isSome lvl hgt hrect _ _ _ _
        (units_pair _ _ _ _ (by decide) (by decide)) hsaus
    case DOWN =>
      simp only [Level.move_of, Level.move_right, hpd]
      exact process_pushes_isSome lvl hgt hrect _ _ _ _
        (units_pair _ _ _ _ (by decide) (by decide)) hsaus
    case LEFT =>
      have ht := tileAt_isSome lvl.tiles hgt hrect (s.player_state.pos.1 - 1)
        s.player_state.pos.2 (by omega) (by omega) (by omega) (by omega)
      obtain ⟨t, ht'⟩ := Option.isSome_iff_exists.mp ht
      simp only [Level.move_of, Level.move_right, hpd, ht']
      cases t
      · exact process_pushes_isSome lvl hgt hrect _ _ _ _ (by simp) hsaus
      · exact process_pushes_isSome lvl hgt hrect _ _ _ _
          (units_single _ _ (by decide)) hsaus
      · exact process_pushes_isSome lvl hgt hrect _ _ _ _
          (units_single _ _ (by decide)) hsaus
    case RIGHT =>
      have ht := tileAt_isSome lvl.tiles hgt hrect (s.player_state.pos.1 + 1)
        s.player_state.pos.2 (by omega) (by omega) (by omega) (by omega)
      obtain ⟨t, ht'⟩ := Option.isSome_iff_exists.mp ht
      simp only [Level.move_of, Level.move_right, hpd, ht']
      cases t
      · exact process_pushes_isSome lvl hgt hrect _ _ _ _ (by simp) hsaus
      · exact process_pushes_isSome lvl hgt hrect _ _ _ _
          (units_single _ _ (by decide)) hsaus
      · exact process_pushes_isSome lvl hgt hrect _ _ _ _
          (units_single _ _ (by decide)) hsaus

/-- Witness for C7_amended: the margin hypotheses hold at a concrete level and
the move succeeds. -/
theorem C7_amended_witness :
    (∀ row ∈ lvlC2.tiles, row.length = 6) ∧
      (1 ≤ lvlC2.initial_state.player_state.pos.1 ∧
        lvlC2.initial_state.player_state.pos.1 + 1 < (lvlC2.tiles.length : ℤ) ∧
        1 ≤ lvlC2.initial_state.player_state.pos.2 ∧
        lvlC2.initial_state.player_state.pos.2 + 1 < (6 : ℕ)) ∧
      (lvlC2.move_of MoveKey.up lvlC2.initial_state).isSome :=
  ⟨by decide, by decide,
    C7_amended lvlC2 6 lvlC2.initial_state MoveKey.up (by decide) (by decide)
      (by decide)⟩

/-- One-step characterisation of consing a binding. -/
theorem alookup_cons {β : Type} (k' : GameState) (v : β)
    (m : List (GameState × β)) (k : GameState) :
    alookup ((k', v) :: m) k = if k = k' then some v else alookup m k := by
  by_cases h : k = k'
  · rw [if_pos h, h, alookup_cons_self]
  · rw [if_neg h, alookup_cons_ne _ _ _ _ (fun hh => h hh.symm)]

theorem contains_of_mem_gs {l : List GameState} {b : GameState} (h : b ∈ l) :
    l.contains b = true := by
  simpa [List.contains] using List.elem_iff.mpr h

theorem mem_of_contains_gs {l : List GameState} {b : GameState}
    (h : l.contains b = true) : b ∈ l := by
  simpa [List.contains] using List.elem_iff.mp (by simpa [List.contains] using h)

/-- The scan that picks `current` only ever returns a member of the open
set. -/
theorem pick_current_aux (f : List (GameState × ℤ)) (c : GameState) :
    ∀ (os : List GameState) (acc : Option GameState × Option ℤ),
      (os.foldl
        (fun acc s =>
          if infLe (alookup f s) acc.2 then (some s, alookup f s) else acc)
        acc).1 = some c →
      c ∈ os ∨ acc.1 = some c := by
  intro os
  induction os with
  | nil => exact fun acc h => Or.inr h
  | cons a as ih =>
    intro acc h
    rw [List.foldl_cons] at h
    rcases ih _ h with hm | hacc
    · exact Or.inl (List.mem_cons_of_mem _ hm)
    · by_cases hc : infLe (alookup f a) acc.2
      · rw [if_pos hc] at hacc
        have : a = c := Option.some.inj hacc
        subst this
        exact Or.inl (List.mem_cons_self _ _)
      · rw [if_neg hc] at hacc
        exact Or.inr hacc

theorem pick_current_mem (f : List (GameState × ℤ)) (os : List GameState)
    (c : GameState) (h : (pick_current f os).1 = some c) : c ∈ os := by
  rcases pick_current_aux f c os (none, none) h with hm | hacc
  · exact hm
  · exact absurd hacc (by simp)

/-- Path reconstruction terminates (within fuel one more than the g-score of
the start) and yields a neighbor-connected chain from the initial state whose
last element is the state reconstruction started from. -/
theorem reconstruct_ok (lvl : Level) (step : List (GameState × GameState))
    (g : List (GameState × ℤ))
    (hstep : ∀ c p, alookup step c = some p →
      ∃ l, lvl.neighbors p = some l ∧ c ∈ l)
    (hdec : ∀ c p, alookup step c = some p →
      ∃ gc gp, alookup g c = some gc ∧ alookup g p = some gp ∧ gp < gc)
    (hterm : ∀ c gv, alookup g c = some gv →
      c = lvl.initial_state ∨ (alookup step c).isSome)
    (hnn : ∀ c gv, alookup g c = some gv → 0 ≤ gv) :
    ∀ (n : ℕ) (back : GameState) (states : List GameState) (gb : ℤ),
      alookup g back = some gb → gb.toNat < n →
      lvl.valid_chain (back :: states) = true →
      ∃ out, reconstruct step n back states = some out ∧
        lvl.valid_chain (lvl.initial_state :: out) = true ∧
        (lvl.initial_state :: out).getLast? = (back :: states).getLast? := by
  intro n
  induction n with
  | zero => exact fun back states gb hg hlt hchain => absurd hlt (by omega)
  | succ n ih =>
    intro back states gb hg hlt hchain
    cases hs : alookup step back with
    | none =>
      rcases hterm back gb hg with hinit | hsome
      · subst hinit
        refine ⟨states, ?_, hchain, rfl⟩
        simp [reconstruct, hs]
      · rw [hs] at hsome
        simp at hsome
    | some prev =>
      obtain ⟨gc, gp, hgc, hgp, hlt2⟩ := hdec back prev hs
      have hgc' : gc = gb := by
        rw [hg] at hgc
        exact (Option.some.inj hgc).symm
      subst hgc'
      have h0 : 0 ≤ gp := hnn prev gp hgp
      have hlt3 : gp.toNat < n := by omega
      obtain ⟨l, hl, hm⟩ := hstep back prev hs
      have hchain' : lvl.valid_chain (prev :: back :: states) = true := by
        simp [Level.valid_chain, hl, contains_of_mem_gs hm, hm, hchain]
      obtain ⟨out, hrec, hvc, hlast⟩ := ih prev (back :: states) gp hgp hlt3 hchain'
      refine ⟨out, ?_, hvc, ?_⟩
      · simpa [reconstruct, hs] using hrec
      · rw [hlast, List.getLast?_cons_cons]

theorem not_mem_of_not_contains_gs {l : List GameState} {b : GameState}
    (h : l.contains b = false) : b ∉ l :=
  fun hm => Bool.noConfusion ((contains_of_mem_gs hm).symm.trans h)

/-- `relax_one` skips a neighbor already in the closed set. -/
theorem relax_one_closed (current : GameState) (st : SearchSt)
    (neighbor : GameState) (hcc : st.closed_set.contains neighbor = true) :
    relax_one current st neighbor = st := by
  simp [relax_one, mem_of_contains_gs hcc]

/-- `relax_one` when the neighbor is open and its score is already `<=` the
tentative one: no change. -/
theorem relax_one_skip (current : GameState) (st : SearchSt)
    (neighbor : GameState) (gcur : ℤ)
    (hcc : st.closed_set.contains neighbor = false)
    (hoc : st.open_set.contains neighbor = true)
    (hg : alookup st.g_score current = some gcur)
    (hif : infLe (alookup st.g_score neighbor) (some (gcur + 1)) = true) :
    relax_one current st neighbor = st := by
  simp [relax_one, not_mem_of_not_contains_gs hcc, mem_of_contains_gs hoc, hg,
    hif]

/-- `relax_one` when the neighbor is newly opened but not rescored. -/
theorem relax_one_add_skip (current : GameState) (st : SearchSt)
    (neighbor : GameState) (gcur : ℤ)
    (hcc : st.closed_set.contains neighbor = false)
    (hoc : st.open_set.contains neighbor = false)
    (hg : alookup st.g_score current = some gcur)
    (hif : infLe (alookup st.g_score neighbor) (some (gcur + 1)) = true) :
    relax_one current st neighbor =
      { st with open_set := st.open_set ++ [neighbor] } := by
  simp [relax_one, not_mem_of_not_contains_gs hcc, not_mem_of_not_contains_gs hoc,
    hg, hif]

/-- `relax_one` when the neighbor is open and gets rescored. -/
theorem relax_one_upd (current : GameState) (st : SearchSt)
    (neighbor : GameState) (gcur : ℤ)
    (hcc : st.closed_set.contains neighbor = false)
    (hoc : st.open_set.contains neighbor = true)
    (hg : alookup st.g_score current = some gcur)
    (hif : infLe (alookup st.g_score neighbor) (some (gcur + 1)) = false) :
    relax_one current st neighbor =
      { st with
        step_lookup := (neighbor, current) :: st.step_lookup,
        g_score := (neighbor, gcur + 1) :: st.g_score,
        f_score := (neighbor, gcur + 1 + heuristic_cost_estimate neighbor) ::
          st.f_score } := by
  simp [relax_one, not_mem_of_not_contains_gs hcc, mem_of_contains_gs hoc, hg,
    hif]

/-- `relax_one` when the neighbor is newly opened and rescored. -/
theorem relax_one_add_upd (current : GameState) (st : SearchSt)
    (neighbor : GameState) (gcur : ℤ)
    (hcc : st.closed_set.contains neighbor = false)
    (hoc : st.open_set.contains neighbor = false)
    (hg : alookup st.g_score current = some gcur)
    (hif : infLe (alookup st.g_score neighbor) (some (gcur + 1)) = false) :
    relax_one current st neighbor =
      { st with
        open_set := st.open_set ++ [neighbor],
        step_lookup := (neighbor, current) :: st.step_lookup,
        g_score := (neighbor, gcur + 1) :: st.g_score,
        f_score := (neighbor, gcur + 1 + heuristic_cost_estimate neighbor) ::
          st.f_score } := by
  simp [relax_one, not_mem_of_not_contains_gs hcc, not_mem_of_not_contains_gs hoc,
    hg, hif]

/-- Rescoring a neighbor preserves the search invariant, for any resulting
open set drawn from the old one plus the neighbor. -/
theorem search_upd_inv (lvl : Level) (current neighbor : GameState)
    (nbrs : List GameState) (st : SearchSt) (open2 : List GameState)
    (gcur : ℤ) (hinv : SearchInv lvl st)
    (hcg : alookup st.g_score current = some gcur)
    (hne_cur : ¬ current = neighbor)
    (hne_init : ¬ neighbor = lvl.initial_state)
    (hgn : ∀ gp, alookup st.g_score neighbor = some gp → gcur + 1 < gp)
    (hnb : lvl.neighbors current = some nbrs) (hmem : neighbor ∈ nbrs)
    (hop : ∀ c ∈ open2, c ∈ st.open_set ∨ c = neighbor) :
    SearchInv lvl
      { closed_set := st.closed_set, open_set := open2,
        step_lookup := (neighbor, current) :: st.step_lookup,
        g_score := (neighbor, gcur + 1) :: st.g_score,
        f_score := (neighbor, gcur + 1 + heuristic_cost_estimate neighbor) ::
          st.f_score } := by
  obtain ⟨h1, h2, h3, h4, h5, h6, h7⟩ := hinv
  refine ⟨?_, ?_, ?_, ?_, ?_, ?_, ?_⟩
  · dsimp only
    intro c p hcp
    rw [alookup_cons] at hcp
    by_cases hcn : c = neighbor
    · subst hcn
      rw [if_pos rfl] at hcp
      obtain rfl : current = p := Option.some.inj hcp
      exact ⟨nbrs, hnb, hmem⟩
    · rw [if_neg hcn] at hcp
      exact h1 c p hcp
  · dsimp only
    intro c p hcp
    rw [alookup_cons] at hcp
    by_cases hcn : c = neighbor
    · subst hcn
      rw [if_pos rfl] at hcp
      obtain rfl : current = p := Option.some.inj hcp
      refine ⟨gcur + 1, gcur, ?_, ?_, by omega⟩
      · rw [alookup_cons, if_pos rfl]
      · rw [alookup_cons, if_neg hne_cur]
        exact hcg
    · rw [if_neg hcn] at hcp
      obtain ⟨gc, gp, hgc, hgp, hlt⟩ := h2 c p hcp
      by_cases hpn : p = neighbor
      · subst hpn
        have := hgn gp hgp
        refine ⟨gc, gcur + 1, ?_, ?_, by omega⟩
        · rw [alookup_cons, if_neg hcn]
          exact hgc
        · rw [alookup_cons, if_pos rfl]
      · refine ⟨gc, gp, ?_, ?_, hlt⟩
        · rw [alookup_cons, if_neg hcn]
          exact hgc
        · rw [alookup_cons, if_neg hpn]
          exact hgp
  · dsimp only
    intro c gv hgv
    by_cases hcn : c = neighbor
    · subst hcn
      right
      rw [alookup_cons, if_pos rfl]
      simp
    · rw [alookup_cons, if_neg hcn] at hgv
      rcases h3 c gv hgv with hi | hs
      · exact Or.inl hi
      · right
        rw [alookup_cons, if_neg hcn]
        exact hs
  · dsimp only
    intro c hc
    by_cases hcn : c = neighbor
    · subst hcn
      rw [alookup_cons, if_pos rfl]
      simp
    · rw [alookup_cons, if_neg hcn]
      rcases hop c hc with h | h
      · exact h4 c h
      · exact absurd h hcn
  · dsimp only
    rw [alookup_cons, if_neg (fun he => hne_init he.symm)]
    exact h5
  · dsimp only
    rw [alookup_cons, if_neg (fun he => hne_init he.symm)]
    exact h6
  · dsimp only
    intro c gv hgv
    rw [alookup_cons] at hgv
    by_cases hcn : c = neighbor
    · rw [if_pos hcn] at hgv
      have h0 := h7 current gcur hcg
      have h1' := Option.some.inj hgv
      omega
    · rw [if_neg hcn] at hgv
      exact h7 c gv hgv

/-- `relax_one` preserves the search invariant when `current` is closed,
scored, and the neighbor really is one of its successors; it never touches the
closed set and keeps `current` scored. -/
theorem relax_one_inv (lvl : Level) (current neighbor : GameState)
    (nbrs : List GameState) (st : SearchSt) (hinv : SearchInv lvl st)
    (hcl : current ∈ st.closed_set)
    (hcg : (alookup st.g_score current).isSome)
    (hnb : lvl.neighbors current = some nbrs) (hmem : neighbor ∈ nbrs) :
    SearchInv lvl (relax_one current st neighbor) ∧
      (relax_one current st neighbor).closed_set = st.closed_set ∧
      (alookup (relax_one current st neighbor).g_score current).isSome := by
  obtain ⟨gcur, hgcur⟩ := Option.isSome_iff_exists.mp hcg
  cases hcc : st.closed_set.contains neighbor with
  | true =>
    rw [relax_one_closed current st neighbor hcc]
    exact ⟨hinv, rfl, hcg⟩
  | false =>
    have hne_cur : ¬ current = neighbor := by
      intro he
      have hct := contains_of_mem_gs hcl
      rw [he] at hct
      rw [hct] at hcc
      exact Bool.noConfusion hcc
    cases hif : infLe (alookup st.g_score neighbor) (some (gcur + 1)) with
    | true =>
      cases hoc : st.open_set.contains neighbor with
      | true =>
        rw [relax_one_skip current st neighbor gcur hcc hoc hgcur hif]
        exact ⟨hinv, rfl, hcg⟩
      | false =>
        rw [relax_one_add_skip current st neighbor gcur hcc hoc hgcur hif]
        have hns : (alookup st.g_score neighbor).isSome := by
          cases hx : alookup st.g_score neighbor with
          | none =>
            rw [hx] at hif
            simp [infLe] at hif
          | some v => simp
        obtain ⟨h1, h2, h3, h4, h5, h6, h7⟩ := hinv
        refine ⟨⟨h1, h2, h3, ?_, h5, h6, h7⟩, rfl, hcg⟩
        intro c hc
        rcases List.mem_append.mp hc with h | h
        · exact h4 c h
        · rw [List.mem_singleton] at h
          subst h
          exact hns
    | false =>
      obtain ⟨h1, h2, h3, h4, h5, h6, h7⟩ := hinv
      have hne_init : ¬ neighbor = lvl.initial_state := by
        intro he
        rw [he, h6] at hif
        have h0 := h7 current gcur hgcur
        simp [infLe] at hif
        omega
      have hgn : ∀ gp, alookup st.g_score neighbor = some gp →
          gcur + 1 < gp := by
        intro gp hgp
        rw [hgp] at hif
        simp [infLe] at hif
        omega
      cases hoc : st.open_set.contains neighbor with
      | true =>
        rw [relax_one_upd current st neighbor gcur hcc hoc hgcur hif]
        refine ⟨?_, rfl, ?_⟩
        · exact search_upd_inv lvl current neighbor nbrs st st.open_set gcur
            ⟨h1, h2, h3, h4, h5, h6, h7⟩ hgcur hne_cur hne_init hgn hnb hmem
            (fun c hc => Or.inl hc)
        · dsimp only
          rw [alookup_cons, if_neg hne_cur, hgcur]
          simp
      | false =>
        rw [relax_one_add_upd current st neighbor gcur hcc hoc hgcur hif]
        refine ⟨?_, rfl, ?_⟩
        · exact search_upd_inv lvl current neighbor nbrs st
            (st.open_set ++ [neighbor]) gcur ⟨h1, h2, h3, h4, h5, h6, h7⟩
            hgcur hne_cur hne_init hgn hnb hmem
            (fun c hc => by
              rcases List.mem_append.mp hc with h | h
              · exact Or.inl h
              · exact Or.inr (List.mem_singleton.mp h))
        · dsimp only
          rw [alookup_cons, if_neg hne_cur, hgcur]
          simp

/-- Folding `relax_one` over any sublist of `current`'s successors preserves
the search invariant. -/
theorem foldl_relax_inv (lvl : Level) (current : GameState)
    (nbrs : List GameState) (hnb : lvl.neighbors current = some nbrs) :
    ∀ (l : List GameState) (st : SearchSt), (∀ x ∈ l, x ∈ nbrs) →
      SearchInv lvl st → current ∈ st.closed_set →
      (alookup st.g_score current).isSome →
      SearchInv lvl (l.foldl (relax_one current) st) := by
  intro l
  induction l with
  | nil => exact fun st _ hinv _ _ => hinv
  | cons a as ih =>
    intro st hl hinv hcl hcg
    rw [List.foldl_cons]
    obtain ⟨hinv', hceq, hcg'⟩ := relax_one_inv lvl current a nbrs st hinv hcl
      hcg hnb (hl a (List.mem_cons_self _ _))
    exact ih _ (fun x hx => hl x (List.mem_cons_of_mem _ hx)) hinv'
      (by rw [hceq]; exact hcl) hcg'

/-- Any success the search loop returns from an invariant-satisfying state is
a neighbor-valid chain from the initial state ending in a winning state. -/
theorem solve_loop_valid (lvl : Level) :
    ∀ (fuel : ℕ) (st : SearchSt) (path : List GameState),
      SearchInv lvl st → lvl.solve_loop fuel st = some (.success path) →
      lvl.valid_chain (lvl.initial_state :: path) = true ∧
        lvl.is_winning
          ((lvl.initial_state :: path).getLastD lvl.initial_state) = true := by
  intro fuel
  induction fuel with
  | zero =>
    intro st path hinv h
    exact absurd h (by simp [Level.solve_loop])
  | succ n ih =>
    intro st path hinv h
    simp only [Level.solve_loop] at h
    split at h
    · simp at h
    · split at h
      · exact Option.noConfusion h
      · rename_i current hpick
        have hcur_open : current ∈ st.open_set :=
          pick_current_mem _ _ _ hpick
        obtain ⟨h1, h2, h3, h4, h5, h6, h7⟩ := hinv
        split at h
        · rename_i hwin
          obtain ⟨gb, hgb⟩ :=
            Option.isSome_iff_exists.mp (h4 current hcur_open)
          cases hrec : reconstruct st.step_lookup
              (((alookup st.g_score current).getD 0).toNat + 1) current [] with
          | none =>
            rw [hrec] at h
            exact Option.noConfusion h
          | some out =>
            rw [hrec] at h
            have hout : out = path := by simpa using h
            subst hout
            obtain ⟨out', hrec', hvc, hlast⟩ := reconstruct_ok lvl
              st.step_lookup st.g_score h1 h2 h3 h7
              (((alookup st.g_score current).getD 0).toNat + 1) current [] gb
              hgb (by rw [hgb]; simp) rfl
            rw [hrec] at hrec'
            have hout' : out' = out := (Option.some.inj hrec').symm
            subst hout'
            refine ⟨hvc, ?_⟩
            rw [List.getLastD_eq_getLast?, hlast]
            simpa using hwin
        · rename_i hwin
          split at h
          · exact Option.noConfusion h
          · rename_i nbrs hnbrs
            refine ih _ path ?_ h
            apply foldl_relax_inv lvl current nbrs hnbrs nbrs _
              (fun x hx => hx)
            · refine ⟨h1, h2, h3, ?_, h5, h6, h7⟩
              intro c hc
              exact h4 c (List.erase_subset _ _ hc)
            · exact List.mem_append.mpr (Or.inr (List.mem_singleton.mpr rfl))
            · exact h4 current hcur_open

/-- C1 (amended): whenever `solve` returns a success path, the path is an
ordered sequence of configurations from the initial configuration (exclusive)
to one satisfying the goal test (inclusive), each consecutive pair related by
one transition-engine action.  Minimality of its length does not hold (the
heuristic is inadmissible); `C1_counterexample` exhibits a level where the
returned path is longer than a valid winning path. -/
theorem C1_amended (lvl : Level) (fuel : ℕ) (path : List GameState)
    (h : lvl.solve fuel = some (.success path)) :
    lvl.valid_chain (lvl.initial_state :: path) = true ∧
      lvl.is_winning
        ((lvl.initial_state :: path).getLastD lvl.initial_state) = true := by
  apply solve_loop_valid lvl fuel _ path _ h
  refine ⟨?_, ?_, ?_, ?_, ?_, ?_, ?_⟩
  · intro c p hcp
    rw [alookup_nil] at hcp
    exact Option.noConfusion hcp
  · intro c p hcp
    rw [alookup_nil] at hcp
    exact Option.noConfusion hcp
  · intro c gv hgv
    rw [alookup_cons] at hgv
    by_cases hc : c = lvl.initial_state
    · exact Or.inl hc
    · rw [if_neg hc, alookup_nil] at hgv
      exact Option.noConfusion hgv
  · intro c hc
    rw [List.mem_singleton] at hc
    subst hc
    rw [alookup_cons, if_pos rfl]
    simp
  · rfl
  · rw [alookup_cons, if_pos rfl]
  · intro c gv hgv
    rw [alookup_cons] at hgv
    by_cases hc : c = lvl.initial_state
    · rw [if_pos hc] at hgv
      have := Option.some.inj hgv
      omega
    · rw [if_neg hc, alookup_nil] at hgv
      exact Option.noConfusion hgv

/-- Witness for C1_amended at a concrete level and path. -/
theorem C1_amended_witness :
    lvlC10.valid_chain [lvlC10.initial_state] = true ∧
      lvlC10.is_winning
        ([lvlC10.initial_state].getLastD lvlC10.initial_state) = true :=
  C1_amended lvlC10 1 [] (by decide)

set_option maxRecDepth 100000 in
set_option maxHeartbeats 0 in
/-- C1 counterexample to minimality: on `trapLevel` the search returns a
9-action path although a valid 5-action winning chain exists, because the
inadmissible heuristic `100 * (4n - grilled)` drags the search toward an early
single-face grilling.  (The returned path is still valid and winning, per
`C1_amended`.) -/
theorem C1_counterexample :
    trapLevel.solve 200 = some (.success trapSolvePath) ∧
      trapSolvePath.length = 9 ∧
      trapLevel.valid_chain (trapLevel.initial_state :: trapShortPath) = true ∧
      trapLevel.is_winning
        (trapShortPath.getLastD trapLevel.initial_state) = true ∧
      trapShortPath.length = 5 :=
  ⟨by decide, by decide, by decide, by decide, by decide⟩
